import Mathlib

/-!
Verification of the reddit-mastermind planning and validation engine.

Shallow embedding of the core algorithm modules:
timestamp utilities, the subreddit, keyword and persona
rotation strategies, the business-rule validators, and the content
generator orchestration.

Timestamps are modelled as integer milliseconds since the epoch, with
hours, minutes and calendar days computed in a fixed (UTC-like) zone.
Randomness is modelled as an explicit stream of rational draws: each
call of the random source consumes the head of the stream, and a
genuine random outcome is a stream whose values lie in [0, 1).
-/

namespace RM

/-- A stream of random draws, one rational per call of the random source. -/
def Rand : Type := Stream' ℚ

/-- Head of the random stream: the next value the random source returns. -/
def Rand.head (g : Rand) : ℚ := Stream'.head g

/-- Tail of the random stream: the source after one draw has been consumed. -/
def Rand.tail (g : Rand) : Rand := Stream'.tail g

/-- A genuine random stream: every draw lies in the interval [0, 1). -/
def ValidRand (g : Rand) : Prop := ∀ i : ℕ, 0 ≤ Stream'.get g i ∧ Stream'.get g i < 1

/-- JS Math.floor applied to a rational value. -/
def jsFloor (q : ℚ) : ℤ := ⌊q⌋

/-! ### Millisecond time model (src/unnamed/part_006) -/

def msPerMinute : ℤ := 60000

def msPerHour : ℤ := 3600000

def msPerDay : ℤ := 86400000

/-- date-fns addMinutes. -/
def addMinutes (t : ℤ) (m : ℤ) : ℤ := t + m * msPerMinute

/-- date-fns addHours. -/
def addHours (t : ℤ) (h : ℤ) : ℤ := t + h * msPerHour

/-- date-fns addDays. -/
def addDays (t : ℤ) (d : ℤ) : ℤ := t + d * msPerDay

/-- Calendar day number of a timestamp (floor division by one day). -/
def dayNumber (t : ℤ) : ℤ := t / msPerDay

/-- JS Date.getHours (single fixed time zone). -/
def getHours (t : ℤ) : ℤ := t % msPerDay / msPerHour

/-- JS Date.getMinutes. -/
def getMinutes (t : ℤ) : ℤ := t % msPerHour / msPerMinute

/-- JS Date.getDay: 0 = Sunday .. 6 = Saturday; the epoch day is a Thursday. -/
def getDay (t : ℤ) : ℤ := (dayNumber t + 4) % 7

/-- JS Date.setHours semantics: replace the hour, keeping day, minutes,
seconds and milliseconds (out-of-range hours roll over). -/
def setHours (t : ℤ) (h : ℤ) : ℤ := msPerDay * dayNumber t + h * msPerHour + t % msPerHour

/-- JS Date.setMinutes semantics: replace the minutes, keeping everything else. -/
def setMinutes (t : ℤ) (m : ℤ) : ℤ := t - t % msPerHour + m * msPerMinute + t % msPerMinute

/-- date-fns startOfWeek with weekStartsOn = 1: midnight of the Monday of
the week of the given timestamp. -/
def startOfWeekMonday (t : ℤ) : ℤ := msPerDay * (dayNumber t - (getDay t + 6) % 7)

/-- date-fns isWeekend. -/
def isWeekend (t : ℤ) : Bool := getDay t == 0 || getDay t == 6

/-- generatePostTime from src/unnamed/part_006: distribute posts over the
week, move weekend slots to the following Monday with 70 percent
probability, and draw an hour and minute from the two weighted bands. -/
def generatePostTime (weekStart : ℤ) (postIndex totalPosts : ℕ) (g : Rand) : ℤ × Rand :=
  let baseDate := startOfWeekMonday weekStart
  let dayOffset : ℕ := postIndex * 7 / totalPosts
  let postDate := addDays baseDate dayOffset
  let (postDate, g) :=
    if isWeekend postDate then
      let r := g.head
      (if r > 3/10 then
        addDays postDate (if getDay postDate == 0 then 1 else 2)
      else postDate, g.tail)
    else (postDate, g)
  let band := g.head
  let g := g.tail
  let (hour, g) :=
    if band < 1/2 then (14 + jsFloor (g.head * 4), g.tail)
    else (9 + jsFloor (g.head * 12), g.tail)
  let minute := jsFloor (g.head * 60)
  let g := g.tail
  let postDate := setHours postDate hour
  let postDate := setMinutes postDate minute
  (postDate, g)

/-- generateFirstCommentTime: post time plus 15 to 59 random minutes. -/
def generateFirstCommentTime (postTime : ℤ) (g : Rand) : ℤ × Rand :=
  let delayMinutes := 15 + jsFloor (g.head * 45)
  (addMinutes postTime delayMinutes, g.tail)

/-- generateReplyCommentTime: parent comment time plus 5 to 29 random minutes. -/
def generateReplyCommentTime (parentCommentTime : ℤ) (g : Rand) : ℤ × Rand :=
  let delayMinutes := 5 + jsFloor (g.head * 25)
  (addMinutes parentCommentTime delayMinutes, g.tail)

/-- generateLateCommentTime: post time plus 1 + floor(r * 5) hours and
floor(r * 60) extra minutes. -/
def generateLateCommentTime (postTime : ℤ) (g : Rand) : ℤ × Rand :=
  let delayHours := 1 + jsFloor (g.head * 5)
  let g1 := g.tail
  let delayMinutes := jsFloor (g1.head * 60)
  let commentTime := addHours postTime delayHours
  let commentTime := addMinutes commentTime delayMinutes
  (commentTime, g1.tail)

/-- adjustToBusinessHours: hour below 6 moves to 09:00 the same day, hour 23
or later moves to 09:00 the next day, otherwise unchanged. -/
def adjustToBusinessHours (t : ℤ) : ℤ :=
  let hour := getHours t
  if hour < 6 then setHours (setMinutes t 0) 9
  else if hour ≥ 23 then setHours (setMinutes (addDays t 1) 0) 9
  else t

/-- getMinutesDifference: floor of the difference in minutes. -/
def getMinutesDifference (date1 date2 : ℤ) : ℤ := (date2 - date1) / (1000 * 60)

/-- isValidCommentTime: the floored minute difference is positive and below
seven days. -/
def isValidCommentTime (postTime commentTime : ℤ) : Bool :=
  let diffMinutes := getMinutesDifference postTime commentTime
  diffMinutes > 0 && diffMinutes < 7 * 24 * 60

/-- getCurrentWeekStart, with the current clock time passed explicitly. -/
def getCurrentWeekStart (now : ℤ) : ℤ := startOfWeekMonday now

/-! ### Data model (src/lib/ai/schemas.ts, src/unnamed/part_003, part_004) -/

structure Persona where
  username : String
  backstory : String
deriving DecidableEq

structure Keyword where
  keyword_id : String
  keyword : String
deriving DecidableEq

structure CompanyInfo where
  name : String
  website : String
  description : String
  subreddits : List String
  postsPerWeek : ℕ
deriving DecidableEq

structure CalendarInput where
  company : CompanyInfo
  personas : List Persona
  keywords : List Keyword
  weekNumber : Option ℕ
deriving DecidableEq

structure GeneratedPost where
  post_id : String
  subreddit : String
  title : String
  body : String
  author_username : String
  timestamp : ℤ
  keyword_ids : List String
deriving DecidableEq

structure GeneratedComment where
  comment_id : String
  post_id : String
  parent_comment_id : Option String
  comment_text : String
  username : String
  timestamp : ℤ
deriving DecidableEq

structure ContentCalendar where
  weekNumber : ℕ
  companyName : String
  posts : List GeneratedPost
  comments : List GeneratedComment
  generatedAt : ℤ
deriving DecidableEq

inductive CommentPosition where
  | first
  | reply
  | late
deriving DecidableEq

structure CommentParentContext where
  text : String
  username : String
deriving DecidableEq

structure GeneratePostRequest where
  persona : Persona
  subreddit : String
  keywords : List Keyword
  company : CompanyInfo
  icpSegment : Option String
deriving DecidableEq

structure CommentPostContext where
  title : String
  body : String
  author_username : String
deriving DecidableEq

structure GenerateCommentRequest where
  persona : Persona
  post : CommentPostContext
  parentComment : Option CommentParentContext
  company : CompanyInfo
  commentPosition : CommentPosition
  shouldMentionProduct : Bool
deriving DecidableEq

structure PostGenerationResult where
  title : String
  body : String
deriving DecidableEq

structure CommentGenerationResult where
  text : String
deriving DecidableEq

/-- External content generation collaborator (src/lib/ai/ai.interface.ts):
each call either produces a result or fails with an error message. -/
structure IAiService where
  generatePost : GeneratePostRequest → Except String PostGenerationResult
  generateComment : GenerateCommentRequest → Except String CommentGenerationResult

/-! ### JS Map as an insertion-ordered association list -/

/-- JS Map.get: the value stored at a key, if any. -/
def alGet {α : Type} (m : List (String × α)) (k : String) : Option α :=
  (m.find? (fun e => e.1 == k)).map (·.2)

/-- JS Map.set: update the value in place when the key is present, append a
fresh entry otherwise (insertion order is preserved). -/
def alSet {α : Type} (m : List (String × α)) (k : String) (v : α) : List (String × α) :=
  if (m.find? (fun e => e.1 == k)).isSome then
    m.map (fun e => if e.1 == k then (k, v) else e)
  else m ++ [(k, v)]

/-- JS Map.values as a list, in insertion order. -/
def alValues {α : Type} (m : List (String × α)) : List α := m.map (·.2)

/-! ### SubredditStrategy (src/unnamed/part_008) -/

structure SubredditUsageTracker where
  subreddit : String
  postsThisWeek : ℕ
  lastPostIndex : ℤ
deriving DecidableEq

def SubState : Type := List (String × SubredditUsageTracker)

/-- Tracker initialization at the top of selectSubreddit: add an entry with
zero posts for every subreddit not yet tracked. -/
def initSubredditTracker (st : SubState) (subreddits : List String) : SubState :=
  subreddits.foldl
    (fun s sub => if (alGet s sub).isSome then s else alSet s sub ⟨sub, 0, -1⟩) st

/-- SubredditStrategy.selectSubreddit: round-robin among subreddits with no
post yet; when all have been used, fall back to the least recently used. -/
def selectSubreddit (st : SubState) (subreddits : List String)
    (postIndex _totalPosts : ℕ) : String × SubState :=
  let st1 := initSubredditTracker st subreddits
  let availableSubreddits := subreddits.filter (fun sub =>
    match alGet st1 sub with
    | some usage => usage.postsThisWeek == 0
    | none => false)
  let selectedSubreddit :=
    if availableSubreddits.isEmpty then
      let sortedByLastUse := List.insertionSort
        (fun a b : SubredditUsageTracker => a.lastPostIndex ≤ b.lastPostIndex)
        (alValues st1)
      (sortedByLastUse.head?.map (·.subreddit)).getD ""
    else
      availableSubreddits.getD (postIndex % availableSubreddits.length) ""
  let st2 :=
    match alGet st1 selectedSubreddit with
    | some usage =>
        alSet st1 selectedSubreddit
          { usage with postsThisWeek := usage.postsThisWeek + 1
                       lastPostIndex := (postIndex : ℤ) }
    | none => st1
  (selectedSubreddit, st2)

/-- mapICPToSubreddit (src/unnamed/part_008): attach a segment label when
both the subreddit name and the company description hit the same entry of
the fixed dictionary. -/
def icpMappings : List (String × List String) :=
  [("consultants", ["consulting", "consultant", "professional services"]),
   ("educators", ["teacher", "professor", "education", "university"]),
   ("marketers", ["marketing", "marketer", "brand", "growth"]),
   ("sales teams", ["sales", "business development", "account executive"]),
   ("executives", ["executive", "ceo", "leadership", "c-suite"]),
   ("designers", ["designer", "design", "creative"]),
   ("developers", ["developer", "engineer", "programmer", "software"])]

/-- JS String.includes. -/
def strIncludes (s sub : String) : Bool := decide (sub.data <:+: s.data)

def mapICPToSubreddit (subreddit : String) (companyDescription : String) : Option String :=
  let description := companyDescription.toLower
  let subredditLower := subreddit.toLower
  (icpMappings.find? (fun e =>
    e.2.any (fun kw => strIncludes subredditLower kw) &&
    e.2.any (fun kw => strIncludes description kw))).map (·.1)

/-! ### KeywordStrategy (src/unnamed/part_007) -/

structure KeywordUsageTracker where
  keywordId : String
  usageCount : ℕ
  lastUsedPostIndex : ℤ
deriving DecidableEq

structure KwState where
  usageTracker : List (String × KeywordUsageTracker)
  keywordCombinations : List String
deriving DecidableEq

def initKeywordTracker (tr : List (String × KeywordUsageTracker))
    (kws : List Keyword) : List (String × KeywordUsageTracker) :=
  kws.foldl
    (fun t kw =>
      if (alGet t kw.keyword_id).isSome then t
      else alSet t kw.keyword_id ⟨kw.keyword_id, 0, -1⟩) tr

def kwLookup (tr : List (String × KeywordUsageTracker)) (k : Keyword) :
    KeywordUsageTracker :=
  (alGet tr k.keyword_id).getD ⟨k.keyword_id, 0, -1⟩

/-- The sort comparator of selectKeywordsForPost: ascending usage count,
ties broken by ascending last-used post index. -/
def kwBefore (tr : List (String × KeywordUsageTracker)) (a b : Keyword) : Prop :=
  (kwLookup tr a).usageCount < (kwLookup tr b).usageCount ∨
  ((kwLookup tr a).usageCount = (kwLookup tr b).usageCount ∧
    (kwLookup tr a).lastUsedPostIndex ≤ (kwLookup tr b).lastUsedPostIndex)

instance (tr : List (String × KeywordUsageTracker)) : DecidableRel (kwBefore tr) :=
  fun _ _ => by unfold kwBefore; infer_instance

/-- The sorted comma-joined keyword id combination recorded in the
keywordCombinations set. -/
def combinationKey (ks : List Keyword) : String :=
  String.intercalate "," (List.insertionSort (fun a b : String => a ≤ b) (ks.map (·.keyword_id)))

def updateKwUsage (tr : List (String × KeywordUsageTracker)) (k : Keyword)
    (postIndex : ℤ) : List (String × KeywordUsageTracker) :=
  let u := kwLookup tr k
  alSet tr k.keyword_id
    { u with usageCount := u.usageCount + 1, lastUsedPostIndex := postIndex }

/-- First selection loop of selectKeywordsForPost: accept a keyword unless
adding it would reproduce an already-seen combination, but never skip the
very first pick. -/
def kwSelectLoop1 (combos : List String) (keywordCount : ℕ) (postIndex : ℤ) :
    List Keyword → List Keyword → List (String × KeywordUsageTracker) →
    List Keyword × List (String × KeywordUsageTracker)
  | [], selected, tr => (selected, tr)
  | k :: rest, selected, tr =>
    if selected.length ≥ keywordCount then (selected, tr)
    else
      let pot := combinationKey (selected ++ [k])
      if selected.length = 0 ∨ combos.contains pot = false then
        kwSelectLoop1 combos keywordCount postIndex rest (selected ++ [k])
          (updateKwUsage tr k postIndex)
      else kwSelectLoop1 combos keywordCount postIndex rest selected tr

/-- Second selection loop of selectKeywordsForPost: fill remaining slots with
least-used keywords whose id is not already selected. -/
def kwSelectLoop2 (keywordCount : ℕ) (postIndex : ℤ) :
    List Keyword → List Keyword → List (String × KeywordUsageTracker) →
    List Keyword × List (String × KeywordUsageTracker)
  | [], selected, tr => (selected, tr)
  | k :: rest, selected, tr =>
    if selected.length ≥ keywordCount then (selected, tr)
    else if (selected.find? (fun s => s.keyword_id == k.keyword_id)).isSome then
      kwSelectLoop2 keywordCount postIndex rest selected tr
    else
      kwSelectLoop2 keywordCount postIndex rest (selected ++ [k])
        (updateKwUsage tr k postIndex)

/-- KeywordStrategy.selectKeywordsForPost. -/
def selectKeywordsForPost (st : KwState) (availableKeywords : List Keyword)
    (postIndex : ℤ) (_subreddit : String) (g : Rand) :
    List Keyword × KwState × Rand :=
  let tr := initKeywordTracker st.usageTracker availableKeywords
  let keywordCount : ℕ := if g.head < 3/5 then 2 else 3
  let g1 := g.tail
  let sortedKeywords := List.insertionSort (kwBefore tr) availableKeywords
  let (sel1, tr1) :=
    kwSelectLoop1 st.keywordCombinations keywordCount postIndex sortedKeywords [] tr
  let (sel2, tr2) :=
    if sel1.length < keywordCount then
      kwSelectLoop2 keywordCount postIndex sortedKeywords sel1 tr1
    else (sel1, tr1)
  let combination := combinationKey sel2
  let combos :=
    if st.keywordCombinations.contains combination then st.keywordCombinations
    else st.keywordCombinations ++ [combination]
  (sel2, ⟨tr2, combos⟩, g1)

/-! ### PersonaMatcher (persona-matcher, in src/lib/algorithm) -/

structure PersonaUsageTracker where
  username : String
  postCount : ℕ
  commentCount : ℕ
  lastUsedIndex : ℤ
deriving DecidableEq

def PState : Type := List (String × PersonaUsageTracker)

def initPersonaTracker (st : PState) (personas : List Persona) : PState :=
  personas.foldl
    (fun s p =>
      if (alGet s p.username).isSome then s
      else alSet s p.username ⟨p.username, 0, 0, -1⟩) st

def pLookup (st : PState) (p : Persona) : PersonaUsageTracker :=
  (alGet st p.username).getD ⟨p.username, 0, 0, -1⟩

/-- The selectPostAuthor comparator: fewest posts first, then least recently
used. -/
def postAuthorBefore (st : PState) (a b : Persona) : Prop :=
  (pLookup st a).postCount < (pLookup st b).postCount ∨
  ((pLookup st a).postCount = (pLookup st b).postCount ∧
    (pLookup st a).lastUsedIndex ≤ (pLookup st b).lastUsedIndex)

instance (st : PState) : DecidableRel (postAuthorBefore st) :=
  fun _ _ => by unfold postAuthorBefore; infer_instance

/-- The selectCommentAuthors comparator: fewest comments first, then least
recently used. -/
def commentAuthorBefore (st : PState) (a b : Persona) : Prop :=
  (pLookup st a).commentCount < (pLookup st b).commentCount ∨
  ((pLookup st a).commentCount = (pLookup st b).commentCount ∧
    (pLookup st a).lastUsedIndex ≤ (pLookup st b).lastUsedIndex)

instance (st : PState) : DecidableRel (commentAuthorBefore st) :=
  fun _ _ => by unfold commentAuthorBefore; infer_instance

/-- PersonaMatcher.selectPostAuthor. -/
def selectPostAuthor (st : PState) (personas : List Persona) (postIndex : ℤ) :
    Persona × PState :=
  let st1 := initPersonaTracker st personas
  let sortedPersonas := List.insertionSort (postAuthorBefore st1) personas
  match sortedPersonas.head? with
  | none => (⟨"", ""⟩, st1)
  | some selectedPersona =>
      let u := pLookup st1 selectedPersona
      (selectedPersona,
        alSet st1 selectedPersona.username
          { u with postCount := u.postCount + 1, lastUsedIndex := postIndex })

/-- PersonaMatcher.selectCommentAuthors: pick 2 to 4 least-used non-author
personas (capped by availability), then with 70 percent probability append
the post author. -/
def selectCommentAuthors (st : PState) (personas : List Persona)
    (postAuthor : Persona) (postIndex : ℤ) (g : Rand) :
    List Persona × PState × Rand :=
  let availablePersonas := personas.filter (fun p => p.username != postAuthor.username)
  if availablePersonas.isEmpty then ([postAuthor], st, g)
  else
    let commentCount : ℤ :=
      min (2 + jsFloor (g.head * 3)) (availablePersonas.length : ℤ)
    let g1 := g.tail
    let sortedPersonas := List.insertionSort (commentAuthorBefore st) availablePersonas
    let selectedPersonas := sortedPersonas.take commentCount.toNat
    let st1 := selectedPersonas.foldl
      (fun s p =>
        let u := (alGet s p.username).getD ⟨p.username, 0, 0, -1⟩
        alSet s p.username
          { u with commentCount := u.commentCount + 1, lastUsedIndex := postIndex }) st
    let opDraw := g1.head < 7/10
    let g2 := g1.tail
    if opDraw ∧ selectedPersonas.length > 0 then
      let u := (alGet st1 postAuthor.username).getD ⟨postAuthor.username, 0, 0, -1⟩
      (selectedPersonas ++ [postAuthor],
        alSet st1 postAuthor.username { u with commentCount := u.commentCount + 1 },
        g2)
    else (selectedPersonas, st1, g2)

/-! ### RuleValidator (src/unnamed/part_010)

Validation messages are modelled as an inductive type carrying the data
that the source interpolates into the message strings. -/

inductive Msg where
  | overposting (subreddit : String) (count : ℕ)
  | tooSimilar (id1 id2 : String) (similarity : ℚ)
  | moderateSimilarity (id1 id2 : String) (similarity : ℚ)
  | postEarlyMorning (postId : String) (hour : ℤ)
  | postMiddleOfNight (postId : String) (hour : ℤ)
  | commentNonexistentPost (commentId postId : String)
  | commentBeforePost (commentId : String) (minutesEarly : ℚ)
  | commentTooLate (commentId : String) (daysLate : ℚ)
  | commentNonexistentParent (commentId parentId : String)
  | commentBeforeParent (commentId : String)
  | commentRepliesQuickly (commentId : String) (minutes : ℚ)
  | personaDominates (username : String) (percentage : ℚ)
  | personaHighShare (username : String) (percentage : ℚ)
  | unusedPersonas (usernames : List String)
  | selfParent (commentId : String)
deriving DecidableEq

structure ValidationResult where
  isValid : Bool
  errors : List Msg
  warnings : List Msg
deriving DecidableEq

/-- validateNoOverposting: count posts per subreddit; any count above 1 is a
blocking error. -/
def countBySubreddit (posts : List GeneratedPost) : List (String × ℕ) :=
  posts.foldl
    (fun m post => alSet m post.subreddit ((alGet m post.subreddit).getD 0 + 1)) []

def validateNoOverposting (posts : List GeneratedPost) : ValidationResult :=
  let errors := (countBySubreddit posts).filterMap
    (fun e => if e.2 > 1 then some (Msg.overposting e.1 e.2) else none)
  ⟨errors.isEmpty, errors, []⟩

/-- calculateTextSimilarity: Jaccard similarity over the sets of words of
length above 3. -/
def textWords (t : String) : List String :=
  ((t.split (fun c => c.isWhitespace)).filter (fun w => w.length > 3)).dedup

def calculateTextSimilarity (text1 text2 : String) : ℚ :=
  let words1 := textWords text1
  let words2 := textWords text2
  if words1.length = 0 ∧ words2.length = 0 then 1
  else if words1.length = 0 ∨ words2.length = 0 then 0
  else
    let inter := words1.filter (fun w => words2.contains w)
    let union := (words1 ++ words2).dedup
    (inter.length : ℚ) / (union.length : ℚ)

/-- validateTopicDiversity: pairwise title similarity; above 0.7 is a
blocking error, above 0.5 a warning. -/
def validateTopicDiversity (posts : List GeneratedPost) : ValidationResult :=
  let pairs := posts.enum.flatMap (fun a =>
    posts.enum.filterMap (fun b => if a.1 < b.1 then some (a.2, b.2) else none))
  let errors := pairs.filterMap (fun pr =>
    let similarity := calculateTextSimilarity pr.1.title.toLower pr.2.title.toLower
    if similarity > 7/10 then some (Msg.tooSimilar pr.1.post_id pr.2.post_id similarity)
    else none)
  let warnings := pairs.filterMap (fun pr =>
    let similarity := calculateTextSimilarity pr.1.title.toLower pr.2.title.toLower
    if similarity > 7/10 then none
    else if similarity > 1/2 then
      some (Msg.moderateSimilarity pr.1.post_id pr.2.post_id similarity)
    else none)
  ⟨errors.isEmpty, errors, warnings⟩

/-- Blocking and non-blocking issues that validateTimestamps reports for one
comment. -/
def commentTimestampIssues (posts : List GeneratedPost)
    (comments : List GeneratedComment) (c : GeneratedComment) :
    List Msg × List Msg :=
  match posts.find? (fun p => p.post_id == c.post_id) with
  | none => ([Msg.commentNonexistentPost c.comment_id c.post_id], [])
  | some post =>
    let base : List Msg :=
      if isValidCommentTime post.timestamp c.timestamp then []
      else
        let timeDiff : ℚ := ((c.timestamp - post.timestamp : ℤ) : ℚ) / (1000 * 60)
        if timeDiff < 0 then [Msg.commentBeforePost c.comment_id |timeDiff|]
        else [Msg.commentTooLate c.comment_id (timeDiff / 60 / 24)]
    match c.parent_comment_id with
    | none => (base, [])
    | some pid =>
      match comments.find? (fun cc => cc.comment_id == pid) with
      | none => (base ++ [Msg.commentNonexistentParent c.comment_id pid], [])
      | some parent =>
        let replyTime : ℚ := ((c.timestamp - parent.timestamp : ℤ) : ℚ) / (1000 * 60)
        if replyTime < 0 then (base ++ [Msg.commentBeforeParent c.comment_id], [])
        else if replyTime < 1 then (base, [Msg.commentRepliesQuickly c.comment_id replyTime])
        else (base, [])

/-- validateTimestamps: post-hour realism plus per-comment ordering checks. -/
def validateTimestamps (posts : List GeneratedPost)
    (comments : List GeneratedComment) : ValidationResult :=
  let postWarnings := posts.filterMap (fun p =>
    if getHours p.timestamp < 6 then
      some (Msg.postEarlyMorning p.post_id (getHours p.timestamp))
    else none)
  let postErrors := posts.filterMap (fun p =>
    if 2 ≤ getHours p.timestamp ∧ getHours p.timestamp < 5 then
      some (Msg.postMiddleOfNight p.post_id (getHours p.timestamp))
    else none)
  let commentResults := comments.map (commentTimestampIssues posts comments)
  let errors := postErrors ++ commentResults.flatMap (·.1)
  let warnings := postWarnings ++ commentResults.flatMap (·.2)
  ⟨errors.isEmpty, errors, warnings⟩

/-- The persona content-count map of validatePersonaDistribution: posts are
counted first, then comments. Only usernames that appear in the content are
ever tracked. -/
def personaCounts (posts : List GeneratedPost)
    (comments : List GeneratedComment) : List (String × ℕ) :=
  let m1 := posts.foldl
    (fun m p => alSet m p.author_username ((alGet m p.author_username).getD 0 + 1)) []
  comments.foldl
    (fun m c => alSet m c.username ((alGet m c.username).getD 0 + 1)) m1

structure PersonaStat where
  username : String
  count : ℕ
  percentage : ℚ
deriving DecidableEq

/-- validatePersonaDistribution: dominance above 50 percent is a blocking
error, above 40 percent a warning; zero-count stats would produce an
unused-persona warning. -/
def validatePersonaDistribution (posts : List GeneratedPost)
    (comments : List GeneratedComment) : ValidationResult :=
  let counts := personaCounts posts comments
  let totalContent : ℕ := posts.length + comments.length
  let personaStats := List.insertionSort (fun a b : PersonaStat => b.count ≤ a.count)
    (counts.map (fun e => ⟨e.1, e.2, (e.2 : ℚ) / (totalContent : ℚ) * 100⟩))
  let errors :=
    match personaStats.head? with
    | some top =>
        if top.percentage > 50 then [Msg.personaDominates top.username top.percentage]
        else []
    | none => []
  let warnings1 :=
    match personaStats.head? with
    | some top =>
        if personaStats.length > 1 ∧ top.percentage > 40 then
          [Msg.personaHighShare top.username top.percentage]
        else []
    | none => []
  let warnings2 :=
    if personaStats.any (fun s => s.count == 0) then
      [Msg.unusedPersonas ((personaStats.filter (fun s => s.count == 0)).map (·.username))]
    else []
  ⟨errors.isEmpty, errors, warnings1 ++ warnings2⟩

/-- validateCommentThreads: a dangling parent reference or a self-parent is
a blocking error. -/
def commentThreadErrors (comments : List GeneratedComment)
    (c : GeneratedComment) : List Msg :=
  match c.parent_comment_id with
  | none => []
  | some pid =>
    (if comments.any (fun cc => cc.comment_id == pid) then []
     else [Msg.commentNonexistentParent c.comment_id pid]) ++
    (if c.comment_id == pid then [Msg.selfParent c.comment_id] else [])

def validateCommentThreads (comments : List GeneratedComment) : ValidationResult :=
  let errors := comments.flatMap (commentThreadErrors comments)
  ⟨errors.isEmpty, errors, []⟩

/-- validateContentCalendar: conjunction of the five checks, concatenating
their error and warning lists. -/
def validateContentCalendar (posts : List GeneratedPost)
    (comments : List GeneratedComment) : ValidationResult :=
  let results := [validateNoOverposting posts,
    validateTopicDiversity posts,
    validateTimestamps posts comments,
    validatePersonaDistribution posts comments,
    validateCommentThreads comments]
  ⟨results.all (·.isValid), results.flatMap (·.errors), results.flatMap (·.warnings)⟩

/-- The per-comment step of fixTimestampIssues: a comment that precedes its
(already adjusted) post is moved to post time plus 15 minutes. -/
def fixCommentTimestamp (posts2 : List GeneratedPost) (c : GeneratedComment) :
    GeneratedComment :=
  match posts2.find? (fun p => p.post_id == c.post_id) with
  | some post =>
      if c.timestamp < post.timestamp then
        { c with timestamp := post.timestamp + 15 * 60 * 1000 }
      else c
  | none => c

/-- fixTimestampIssues: adjust post timestamps to business hours, then move
any comment that precedes its (adjusted) post to post time plus 15 minutes. -/
def fixTimestampIssues (posts : List GeneratedPost)
    (comments : List GeneratedComment) :
    List GeneratedPost × List GeneratedComment :=
  let posts2 := posts.map (fun p => { p with timestamp := adjustToBusinessHours p.timestamp })
  (posts2, comments.map (fixCommentTimestamp posts2))

/-! ### ContentGenerator (src/unnamed/part_009) -/

structure PostPlan where
  postIndex : ℕ
  subreddit : String
  author : Persona
  timestamp : ℤ
  keywords : List Keyword
  icpSegment : Option String
deriving DecidableEq

structure CommentPlan where
  position : CommentPosition
  author : Persona
  parentCommentId : Option String
  shouldMentionProduct : Bool
  timingOffset : String
deriving DecidableEq

/-- Phase 1 loop body of createWeeklyPostPlan, threading the three strategy
states and the random stream. -/
def createWeeklyPostPlanAux (input : CalendarInput) (weekStart : ℤ) :
    List ℕ → SubState → KwState → PState → Rand →
    List PostPlan × PState × Rand
  | [], _, _, pSt, g => ([], pSt, g)
  | i :: rest, subSt, kwSt, pSt, g =>
    let (subreddit, subSt1) :=
      selectSubreddit subSt input.company.subreddits i input.company.postsPerWeek
    let (selectedKeywords, kwSt1, g1) :=
      selectKeywordsForPost kwSt input.keywords (i : ℤ) subreddit g
    let (author, pSt1) := selectPostAuthor pSt input.personas (i : ℤ)
    let (timestamp, g2) := generatePostTime weekStart i input.company.postsPerWeek g1
    let icpSegment := mapICPToSubreddit subreddit input.company.description
    let plan : PostPlan := ⟨i, subreddit, author, timestamp, selectedKeywords, icpSegment⟩
    let (plans, pSt2, g3) := createWeeklyPostPlanAux input weekStart rest subSt1 kwSt1 pSt1 g2
    (plan :: plans, pSt2, g3)

/-- createWeeklyPostPlan, starting from the freshly reset strategy states. -/
def createWeeklyPostPlan (input : CalendarInput) (weekStart : ℤ) (g : Rand) :
    List PostPlan × PState × Rand :=
  createWeeklyPostPlanAux input weekStart (List.range input.company.postsPerWeek)
    [] ⟨[], []⟩ [] g

/-- Phase 2: generate each planned post through the collaborator; any failure
aborts the whole run. -/
def generatePosts (svc : IAiService) (input : CalendarInput) :
    List PostPlan → Except String (List GeneratedPost)
  | [] => .ok []
  | plan :: rest =>
    match svc.generatePost
        ⟨plan.author, plan.subreddit, plan.keywords, input.company, plan.icpSegment⟩ with
    | .error e => .error e
    | .ok result =>
      match generatePosts svc input rest with
      | .error e => .error e
      | .ok posts =>
          .ok ({ post_id := "P" ++ Nat.repr (plan.postIndex + 1),
                 subreddit := plan.subreddit,
                 title := result.title,
                 body := result.body,
                 author_username := plan.author.username,
                 timestamp := plan.timestamp,
                 keyword_ids := plan.keywords.map (·.keyword_id) } :: posts)

/-- createCommentPlans loop body: position policy by comment slot index.
The parent reference of every reply is the literal id C1. -/
def createCommentPlansAux (postAuthor : Persona) :
    List Persona → ℕ → Rand → List CommentPlan × Rand
  | [], _, g => ([], g)
  | persona :: rest, i, g =>
    let pg : CommentPlan × Rand :=
      if i = 0 then
        (⟨.first, persona, none, g.head < 7/10, "+21min"⟩, g.tail)
      else if i = 1 then
        let replyDraw := g.head < 3/5
        let gr := g.tail
        if replyDraw then
          (⟨.reply, persona, some "C1", gr.head < 3/10, "+16min"⟩, gr.tail)
        else if persona.username = postAuthor.username then
          (⟨.reply, persona, some "C1", false, "+16min"⟩, gr)
        else
          (⟨.late, persona, none, gr.head < 2/5, "+2h"⟩, gr.tail)
      else
        if persona.username = postAuthor.username then
          (⟨.reply, persona, some "C1", false, "+16min"⟩, g)
        else
          (⟨.late, persona, none, g.head < 2/5, "+2h"⟩, g.tail)
    let tl := createCommentPlansAux postAuthor rest (i + 1) pg.2
    (pg.1 :: tl.1, tl.2)

/-- createCommentPlans: plan min(targetCount, persona count) comments. -/
def createCommentPlans (personas : List Persona) (targetCount : ℤ)
    (postAuthor : Persona) (g : Rand) : List CommentPlan × Rand :=
  let actualCount := (min targetCount (personas.length : ℤ)).toNat
  createCommentPlansAux postAuthor (personas.take actualCount) 0 g

/-- Phase 3 inner loop: generate the comments of one post, appending to the
run-wide comment list and advancing the run-scoped id counter. -/
def generateCommentsForPost (svc : IAiService) (input : CalendarInput)
    (post : GeneratedPost) :
    List CommentPlan → List GeneratedComment → ℕ → Rand →
    Except String (List GeneratedComment × ℕ × Rand)
  | [], allComments, counter, g => .ok (allComments, counter, g)
  | commentPlan :: rest, allComments, counter, g =>
    let parentComment : Option GeneratedComment :=
      match commentPlan.parentCommentId with
      | some pid => allComments.find? (fun c => c.comment_id == pid)
      | none => none
    match svc.generateComment
        ⟨commentPlan.author,
         ⟨post.title, post.body, post.author_username⟩,
         parentComment.map (fun pc => ⟨pc.comment_text, pc.username⟩),
         input.company, commentPlan.position, commentPlan.shouldMentionProduct⟩ with
    | .error e => .error e
    | .ok result =>
      let tsg : ℤ × Rand :=
        match commentPlan.position, parentComment with
        | .first, _ => generateFirstCommentTime post.timestamp g
        | .reply, some parent => generateReplyCommentTime parent.timestamp g
        | _, _ => generateLateCommentTime post.timestamp g
      generateCommentsForPost svc input post rest
        (allComments ++
          [⟨"C" ++ Nat.repr counter, post.post_id, commentPlan.parentCommentId,
            result.text, commentPlan.author.username, tsg.1⟩])
        (counter + 1) tsg.2

/-- Phase 3 outer loop over the posts. -/
def generateCommentsAux (svc : IAiService) (input : CalendarInput) :
    List (GeneratedPost × PostPlan) → ℕ → List GeneratedComment → ℕ →
    PState → Rand → Except String (List GeneratedComment × ℕ × PState × Rand)
  | [], _, allComments, counter, pSt, g => .ok (allComments, counter, pSt, g)
  | (post, plan) :: rest, i, allComments, counter, pSt, g =>
    let commentCount := 2 + jsFloor (g.head * 3)
    let g1 := g.tail
    let sca := selectCommentAuthors pSt input.personas plan.author (i : ℤ) g1
    let cpg := createCommentPlans sca.1 commentCount plan.author sca.2.2
    match generateCommentsForPost svc input post cpg.1 allComments counter cpg.2 with
    | .error e => .error e
    | .ok r =>
        generateCommentsAux svc input rest (i + 1) r.1 r.2.1 sca.2.1 r.2.2

/-- Phase 3: generate all comment threads; the comment id counter starts at 1
and is shared across posts. -/
def generateComments (svc : IAiService) (input : CalendarInput)
    (posts : List GeneratedPost) (postPlans : List PostPlan)
    (pSt : PState) (g : Rand) :
    Except String (List GeneratedComment × ℕ × PState × Rand) :=
  generateCommentsAux svc input (posts.zip postPlans) 0 [] 1 pSt g

/-- ContentGenerator.generate: plan, generate posts, generate comments, run
the timestamp auto-fix, validate, and either fail or assemble the calendar. -/
def generate (svc : IAiService) (input : CalendarInput) (now : ℤ) (g : Rand) :
    Except String ContentCalendar :=
  let weekStart := getCurrentWeekStart now
  let cw := createWeeklyPostPlan input weekStart g
  match generatePosts svc input cw.1 with
  | .error e => .error e
  | .ok posts =>
    match generateComments svc input posts cw.1 cw.2.1 cw.2.2 with
    | .error e => .error e
    | .ok r =>
      let fixed := fixTimestampIssues posts r.1
      let validation := validateContentCalendar fixed.1 fixed.2
      if validation.isValid then
        .ok ⟨input.weekNumber.getD 1, input.company.name, fixed.1, fixed.2, now⟩
      else .error "Content validation failed"

/-! ### Helper lemmas: random streams and floors -/

/-- The all-zero random stream, used as a concrete outcome in witnesses. -/
def zeroRand : Rand := fun _ => 0

theorem zeroRand_valid : ValidRand zeroRand := by
  intro i
  constructor
  · exact le_refl 0
  · norm_num [zeroRand, Stream'.get]

theorem validRand_head {g : Rand} (h : ValidRand g) : 0 ≤ g.head ∧ g.head < 1 := h 0

theorem validRand_tail {g : Rand} (h : ValidRand g) : ValidRand g.tail := by
  intro i
  exact h (i + 1)

theorem jsFloor_mul_bounds {r : ℚ} (n : ℕ) (hn : 0 < n) (h0 : 0 ≤ r) (h1 : r < 1) :
    0 ≤ jsFloor (r * n) ∧ jsFloor (r * n) < n := by
  constructor
  · exact Int.floor_nonneg.mpr (mul_nonneg h0 (by positivity))
  · refine Int.floor_lt.mpr ?_
    calc r * n < 1 * n := by
          apply mul_lt_mul_of_pos_right h1
          exact_mod_cast hn
    _ = n := by ring

/-! ### Claim C9: adjustToBusinessHours -/

theorem getHours_fix9 (t : ℤ) : getHours (setHours (setMinutes t 0) 9) = 9 := by
  simp only [getHours, setHours, setMinutes, dayNumber, msPerDay, msPerHour, msPerMinute]
  omega

theorem getMinutes_fix9 (t : ℤ) : getMinutes (setHours (setMinutes t 0) 9) = 0 := by
  simp only [getMinutes, setHours, setMinutes, dayNumber, msPerDay, msPerHour, msPerMinute]
  omega

theorem dayNumber_fix9 (t : ℤ) : dayNumber (setHours (setMinutes t 0) 9) = dayNumber t := by
  simp only [setHours, setMinutes, dayNumber, msPerDay, msPerHour, msPerMinute]
  omega

theorem dayNumber_addDays_one (t : ℤ) : dayNumber (addDays t 1) = dayNumber t + 1 := by
  simp only [addDays, dayNumber, msPerDay]
  omega

theorem adjust_of_lt_6 (t : ℤ) (h : getHours t < 6) :
    adjustToBusinessHours t = setHours (setMinutes t 0) 9 := by
  unfold adjustToBusinessHours
  simp [h]

theorem adjust_of_ge_23 (t : ℤ) (h : 23 ≤ getHours t) :
    adjustToBusinessHours t = setHours (setMinutes (addDays t 1) 0) 9 := by
  unfold adjustToBusinessHours
  have h6 : ¬ getHours t < 6 := by omega
  simp [h6, h]

theorem adjust_of_mid (t : ℤ) (h6 : 6 ≤ getHours t) (h23 : getHours t < 23) :
    adjustToBusinessHours t = t := by
  unfold adjustToBusinessHours
  have h6x : ¬ getHours t < 6 := by omega
  have h23x : ¬ getHours t ≥ 23 := by omega
  simp [h6x, h23x]

/-- C9: adjustToBusinessHours is idempotent; timestamps with hour in [6, 23)
are unchanged; hours below 6 are sent to 09:00 of the same day and hours at
or after 23 to 09:00 of the next day, both fixed points of the adjustment. -/
theorem c9_adjustToBusinessHours_idempotent (t : ℤ) :
    adjustToBusinessHours (adjustToBusinessHours t) = adjustToBusinessHours t ∧
    (6 ≤ getHours t ∧ getHours t < 23 → adjustToBusinessHours t = t) ∧
    (getHours t < 6 →
      getHours (adjustToBusinessHours t) = 9 ∧
      getMinutes (adjustToBusinessHours t) = 0 ∧
      dayNumber (adjustToBusinessHours t) = dayNumber t) ∧
    (23 ≤ getHours t →
      getHours (adjustToBusinessHours t) = 9 ∧
      getMinutes (adjustToBusinessHours t) = 0 ∧
      dayNumber (adjustToBusinessHours t) = dayNumber t + 1) := by
  rcases lt_or_le (getHours t) 6 with h6 | h6
  · have e := adjust_of_lt_6 t h6
    have hid : adjustToBusinessHours (adjustToBusinessHours t) = adjustToBusinessHours t := by
      rw [e]
      exact adjust_of_mid _ (by rw [getHours_fix9]; omega) (by rw [getHours_fix9]; omega)
    refine ⟨hid, by omega, fun _ => ?_, by omega⟩
    rw [e]
    exact ⟨getHours_fix9 t, getMinutes_fix9 t, dayNumber_fix9 t⟩
  · rcases lt_or_le (getHours t) 23 with h23 | h23
    · have e := adjust_of_mid t h6 h23
      refine ⟨by rw [e, e], fun _ => e, by omega, by omega⟩
    · have e := adjust_of_ge_23 t h23
      have hid : adjustToBusinessHours (adjustToBusinessHours t) = adjustToBusinessHours t := by
        rw [e]
        exact adjust_of_mid _ (by rw [getHours_fix9]; omega) (by rw [getHours_fix9]; omega)
      refine ⟨hid, by omega, by omega, fun _ => ?_⟩
      rw [e]
      refine ⟨getHours_fix9 _, getMinutes_fix9 _, ?_⟩
      rw [dayNumber_fix9, dayNumber_addDays_one]

theorem c9_witness :
    adjustToBusinessHours (adjustToBusinessHours 50400000) = adjustToBusinessHours 50400000 ∧
    adjustToBusinessHours 50400000 = 50400000 ∧
    getHours (adjustToBusinessHours 3600000) = 9 ∧
    dayNumber (adjustToBusinessHours 3600000) = dayNumber 3600000 ∧
    getHours (adjustToBusinessHours 84600000) = 9 ∧
    dayNumber (adjustToBusinessHours 84600000) = dayNumber 84600000 + 1 := by
  refine ⟨(c9_adjustToBusinessHours_idempotent 50400000).1,
    (c9_adjustToBusinessHours_idempotent 50400000).2.1 (by decide),
    ((c9_adjustToBusinessHours_idempotent 3600000).2.2.1 (by decide)).1,
    ((c9_adjustToBusinessHours_idempotent 3600000).2.2.1 (by decide)).2.2,
    ((c9_adjustToBusinessHours_idempotent 84600000).2.2.2 (by decide)).1,
    ((c9_adjustToBusinessHours_idempotent 84600000).2.2.2 (by decide)).2.2⟩

/-! ### Claim C5: generateLateCommentTime delay range -/

/-- C5 evaluation: for every genuine random outcome the late-comment delay is
at least 1 hour and strictly below 6 hours; its whole-hour component is at
most 5, so a 6-hour delay never occurs. The code draws the hour count as
1 + floor(r * 5), which ranges over 1..5, while its own documentation and
the specification promise 1..6 hours. -/
theorem c5_lateCommentTime_delay_bounds (postTime : ℤ) (g : Rand) (hg : ValidRand g) :
    msPerHour ≤ (generateLateCommentTime postTime g).1 - postTime ∧
    (generateLateCommentTime postTime g).1 - postTime < 6 * msPerHour ∧
    ((generateLateCommentTime postTime g).1 - postTime) / msPerHour ≤ 5 := by
  have h0 := validRand_head hg
  have h1 := validRand_head (validRand_tail hg)
  have hb1 := jsFloor_mul_bounds 5 (by norm_num) h0.1 h0.2
  have hb2 := jsFloor_mul_bounds 60 (by norm_num) h1.1 h1.2
  push_cast at hb1 hb2
  simp only [generateLateCommentTime, addHours, addMinutes, msPerHour, msPerMinute] at *
  omega

theorem c5_witness :
    msPerHour ≤ (generateLateCommentTime 0 zeroRand).1 - 0 ∧
    (generateLateCommentTime 0 zeroRand).1 - 0 < 6 * msPerHour ∧
    ((generateLateCommentTime 0 zeroRand).1 - 0) / msPerHour ≤ 5 :=
  c5_lateCommentTime_delay_bounds 0 zeroRand zeroRand_valid

/-! ### Claim C10: sub-minute comment offsets -/

theorem isValidCommentTime_subminute {postTime commentTime : ℤ}
    (h1 : 0 < commentTime - postTime) (h2 : commentTime - postTime < 60000) :
    isValidCommentTime postTime commentTime = false := by
  simp only [isValidCommentTime, getMinutesDifference]
  simp only [Bool.and_eq_false_iff, decide_eq_false_iff_not]
  omega

theorem commentTimestampIssues_subminute (postTime commentTime : ℤ)
    (h1 : 0 < commentTime - postTime) (h2 : commentTime - postTime < 60000) :
    commentTimestampIssues
      [⟨"P1", "r/sub", "title", "body", "author", postTime, []⟩]
      [⟨"C1", "P1", none, "text", "user", commentTime⟩]
      ⟨"C1", "P1", none, "text", "user", commentTime⟩ =
    ([Msg.commentTooLate "C1"
        (((commentTime - postTime : ℤ) : ℚ) / (1000 * 60) / 60 / 24)], []) := by
  have hvalid : isValidCommentTime postTime commentTime = false :=
    isValidCommentTime_subminute h1 h2
  have hfind : List.find?
      (fun p => p.post_id == "P1")
      [(⟨"P1", "r/sub", "title", "body", "author", postTime, []⟩ : GeneratedPost)] =
      some ⟨"P1", "r/sub", "title", "body", "author", postTime, []⟩ := rfl
  have hneg : ¬ (((commentTime - postTime : ℤ) : ℚ) / (1000 * 60) < 0) := by
    push_neg
    have h : (0 : ℚ) < ((commentTime - postTime : ℤ) : ℚ) := by exact_mod_cast h1
    positivity
  unfold commentTimestampIssues
  simp only [hfind, hvalid, hneg, if_false, Bool.false_eq_true, reduceIte]

/-- C10 amended: a comment strictly less than one minute after its post makes
isValidCommentTime return false, and validateTimestamps then reports a
blocking too-late error for it (the raw difference is positive, so the early
branch is not taken). -/
theorem c10_subminute_comment_rejected (postTime commentTime : ℤ)
    (h1 : 0 < commentTime - postTime) (h2 : commentTime - postTime < 60000) :
    isValidCommentTime postTime commentTime = false ∧
    Msg.commentTooLate "C1" (((commentTime - postTime : ℤ) : ℚ) / (1000 * 60) / 60 / 24) ∈
      (validateTimestamps [⟨"P1", "r/sub", "title", "body", "author", postTime, []⟩]
        [⟨"C1", "P1", none, "text", "user", commentTime⟩]).errors := by
  refine ⟨isValidCommentTime_subminute h1 h2, ?_⟩
  unfold validateTimestamps
  simp only [List.map_cons, List.map_nil, List.flatMap_cons, List.flatMap_nil,
    commentTimestampIssues_subminute postTime commentTime h1 h2, List.append_nil]
  exact List.mem_append.mpr (Or.inr (by simp))

/-- C10 counterexample to the claim as stated: at postTime 0 and commentTime
30000 (30 seconds later) the error list contains only the too-late message,
not a before-its-post message. -/
theorem c10_counterexample :
    (0 : ℤ) < 30000 - 0 ∧ (30000 : ℤ) - 0 < 60000 ∧
    isValidCommentTime 0 30000 = false ∧
    (validateTimestamps [⟨"P1", "r/sub", "title", "body", "author", 0, []⟩]
        [⟨"C1", "P1", none, "text", "user", 30000⟩]).errors =
      [Msg.commentTooLate "C1" (((30000 - 0 : ℤ) : ℚ) / (1000 * 60) / 60 / 24)] := by
  refine ⟨by norm_num, by norm_num,
    isValidCommentTime_subminute (by norm_num) (by norm_num), ?_⟩
  unfold validateTimestamps
  simp only [List.map_cons, List.map_nil, List.flatMap_cons, List.flatMap_nil,
    commentTimestampIssues_subminute 0 30000 (by norm_num) (by norm_num), List.append_nil]
  simp [List.filterMap]
  decide

theorem c10_witness :
    isValidCommentTime 100 30100 = false ∧
    Msg.commentTooLate "C1" (((30100 - 100 : ℤ) : ℚ) / (1000 * 60) / 60 / 24) ∈
      (validateTimestamps [⟨"P1", "r/sub", "title", "body", "author", 100, []⟩]
        [⟨"C1", "P1", none, "text", "user", 30100⟩]).errors :=
  c10_subminute_comment_rejected 100 30100 (by norm_num) (by norm_num)

/-! ### Claim C6: the unused-personas warning is unreachable -/

theorem alSet_mem {α : Type} {m : List (String × α)} {k : String} {v : α} :
    ∀ x ∈ alSet m k v, x ∈ m ∨ x = (k, v) := by
  intro x hx
  unfold alSet at hx
  split at hx
  · rcases List.mem_map.mp hx with ⟨e, he, hfe⟩
    by_cases h : (e.1 == k) = true
    · right
      simp only [h, if_true] at hfe
      exact hfe.symm
    · left
      simp only [h, if_false, Bool.false_eq_true, reduceIte] at hfe
      rwa [← hfe]
  · rcases List.mem_append.mp hx with h | h
    · exact Or.inl h
    · right
      simpa using h

theorem countFold_pos {β : Type} (key : β → String) :
    ∀ (l : List β) (m : List (String × ℕ)), (∀ x ∈ m, 1 ≤ x.2) →
      ∀ x ∈ l.foldl (fun acc b => alSet acc (key b) ((alGet acc (key b)).getD 0 + 1)) m,
        1 ≤ x.2 := by
  intro l
  induction l with
  | nil => exact fun m hm x hx => hm x hx
  | cons b rest ih =>
      intro m hm x hx
      refine ih _ ?_ x hx
      intro y hy
      rcases alSet_mem y hy with h | h
      · exact hm y h
      · rw [h]
        omega

theorem personaCounts_pos (posts : List GeneratedPost)
    (comments : List GeneratedComment) :
    ∀ x ∈ personaCounts posts comments, 1 ≤ x.2 := by
  intro x hx
  unfold personaCounts at hx
  refine countFold_pos (fun c : GeneratedComment => c.username) comments _ ?_ x hx
  intro y hy
  exact countFold_pos (fun p : GeneratedPost => p.author_username) posts [] (by simp) y hy

/-- C6 evaluation: validatePersonaDistribution can never emit an
unused-personas warning. Its count map only contains usernames carrying at
least one post or comment, so the zero-count check that guards the warning
is dead code; the function is not given the persona list at all. -/
theorem c6_unused_personas_warning_never_fires (posts : List GeneratedPost)
    (comments : List GeneratedComment) (usernames : List String) :
    Msg.unusedPersonas usernames ∉ (validatePersonaDistribution posts comments).warnings := by
  intro hmem
  unfold validatePersonaDistribution at hmem
  simp only at hmem
  have hpos : ∀ s ∈ List.insertionSort (fun a b : PersonaStat => b.count ≤ a.count)
      ((personaCounts posts comments).map (fun e =>
        (⟨e.1, e.2, (e.2 : ℚ) / ((posts.length + comments.length : ℕ) : ℚ) * 100⟩ : PersonaStat))),
      1 ≤ s.count := by
    intro s hs
    have hs2 := (List.mem_insertionSort _).mp hs
    rcases List.mem_map.mp hs2 with ⟨e, he, hrfl⟩
    rw [← hrfl]
    exact personaCounts_pos posts comments e he
  rcases List.mem_append.mp hmem with h | h
  · rcases htop : (List.insertionSort (fun a b : PersonaStat => b.count ≤ a.count)
      ((personaCounts posts comments).map (fun e =>
        (⟨e.1, e.2, (e.2 : ℚ) / ((posts.length + comments.length : ℕ) : ℚ) * 100⟩ : PersonaStat)))).head? with
      _ | top
    · rw [htop] at h
      simp at h
    · rw [htop] at h
      split at h
      · simp at h
      · simp at h
  · have hany : (List.insertionSort (fun a b : PersonaStat => b.count ≤ a.count)
        ((personaCounts posts comments).map (fun e =>
          (⟨e.1, e.2, (e.2 : ℚ) / ((posts.length + comments.length : ℕ) : ℚ) * 100⟩ : PersonaStat)))).any
        (fun s => s.count == 0) = false := by
      rw [List.any_eq_false]
      intro s hs
      have := hpos s hs
      simp only [beq_iff_eq]
      omega
    rw [hany] at h
    simp at h

/-! ### Claim C4: subreddit distinctness on a fresh strategy -/

theorem alGet_map_update_self {α : Type} (m : List (String × α)) (k : String) (v : α) :
    alGet (m.map (fun e => if e.1 == k then (k, v) else e)) k =
      if (m.find? (fun e => e.1 == k)).isSome then some v else none := by
  induction m with
  | nil => rfl
  | cons e rest ih =>
      by_cases h : (e.1 == k) = true
      · simp only [List.map_cons, h, if_true]
        unfold alGet
        rw [@List.find?_cons_of_pos _ (fun x => x.1 == k) (k, v) _ (by simp),
          @List.find?_cons_of_pos _ (fun x => x.1 == k) e _ h]
        simp
      · simp only [List.map_cons, h, Bool.false_eq_true, reduceIte]
        unfold alGet at ih ⊢
        rw [@List.find?_cons_of_neg _ (fun x => x.1 == k) e _ h,
          @List.find?_cons_of_neg _ (fun x => x.1 == k) e _ h]
        exact ih

theorem alGet_map_update_ne {α : Type} (m : List (String × α)) (k k' : String) (v : α)
    (hkk : k' ≠ k) :
    alGet (m.map (fun e => if e.1 == k then (k, v) else e)) k' = alGet m k' := by
  induction m with
  | nil => rfl
  | cons e rest ih =>
      by_cases h : (e.1 == k) = true
      · have he1 : e.1 = k := by simpa using h
        have hk' : ¬ ((k, v).1 == k') = true := by
          simp only [beq_iff_eq]
          exact fun hh => hkk hh.symm
        have he' : ¬ (e.1 == k') = true := by
          rw [he1]
          simpa using fun hh => hkk hh.symm
        simp only [List.map_cons, h, if_true]
        unfold alGet at ih ⊢
        rw [@List.find?_cons_of_neg _ (fun x => x.1 == k') (k, v) _ hk',
          @List.find?_cons_of_neg _ (fun x => x.1 == k') e _ he']
        exact ih
      · simp only [List.map_cons, h, Bool.false_eq_true, reduceIte]
        by_cases h' : (e.1 == k') = true
        · unfold alGet
          rw [@List.find?_cons_of_pos _ (fun x => x.1 == k') e _ h',
            @List.find?_cons_of_pos _ (fun x => x.1 == k') e _ h']
        · unfold alGet at ih ⊢
          rw [@List.find?_cons_of_neg _ (fun x => x.1 == k') e _ h',
            @List.find?_cons_of_neg _ (fun x => x.1 == k') e _ h']
          exact ih

theorem alGet_append_single {α : Type} (m : List (String × α)) (k k' : String) (v : α) :
    alGet (m ++ [(k, v)]) k' =
      match alGet m k' with
      | some w => some w
      | none => if k' = k then some v else none := by
  induction m with
  | nil =>
      by_cases h : k' = k
      · subst h
        simp [alGet, List.find?]
      · have hk : ¬ ((k, v).1 == k') = true := by
          simp only [beq_iff_eq]
          exact fun hh => h hh.symm
        unfold alGet
        rw [List.nil_append, @List.find?_cons_of_neg _ (fun x => x.1 == k') (k, v) _ hk]
        simp [h]
  | cons e rest ih =>
      by_cases h : (e.1 == k') = true
      · unfold alGet
        rw [List.cons_append, @List.find?_cons_of_pos _ (fun x => x.1 == k') e _ h,
          @List.find?_cons_of_pos _ (fun x => x.1 == k') e _ h]
        simp
      · unfold alGet at ih ⊢
        rw [List.cons_append, @List.find?_cons_of_neg _ (fun x => x.1 == k') e _ h,
          @List.find?_cons_of_neg _ (fun x => x.1 == k') e _ h]
        exact ih

theorem alGet_alSet_self {α : Type} (m : List (String × α)) (k : String) (v : α) :
    alGet (alSet m k v) k = some v := by
  by_cases hc : ((m.find? (fun e => e.1 == k)).isSome = true)
  · simp only [alSet, hc, if_true]
    rw [alGet_map_update_self]
    simp [hc]
  · simp only [alSet, hc, Bool.false_eq_true, reduceIte]
    rw [alGet_append_single]
    have hnone : alGet m k = none := by
      unfold alGet
      rcases hf : m.find? (fun e => e.1 == k) with _ | w
      · rw [hf]
        rfl
      · exact absurd (by simp [hf]) hc
    rw [hnone]
    simp

theorem alGet_alSet_ne {α : Type} (m : List (String × α)) (k k' : String) (v : α)
    (h : k' ≠ k) :
    alGet (alSet m k v) k' = alGet m k' := by
  by_cases hc : ((m.find? (fun e => e.1 == k)).isSome = true)
  · simp only [alSet, hc, if_true]
    exact alGet_map_update_ne m k k' v h
  · simp only [alSet, hc, Bool.false_eq_true, reduceIte]
    rw [alGet_append_single]
    rcases hm : alGet m k' with _ | w
    · simp [h]
    · rfl

/-- A subreddit is used in a strategy state when its tracked post count is
nonzero. -/
def subUsed (st : SubState) (s : String) : Prop :=
  ∃ u, alGet st s = some u ∧ u.postsThisWeek ≠ 0

theorem initSubredditTracker_get (subs : List String) :
    ∀ (st : SubState) (s : String),
      alGet (initSubredditTracker st subs) s =
        match alGet st s with
        | some u => some u
        | none => if s ∈ subs then some ⟨s, 0, -1⟩ else none := by
  induction subs with
  | nil =>
      intro st s
      rcases h : alGet st s with _ | u <;> simp [initSubredditTracker, h]
  | cons sub rest ih =>
      intro st s
      have step : initSubredditTracker st (sub :: rest) =
          initSubredditTracker
            (if (alGet st sub).isSome then st else alSet st sub ⟨sub, 0, -1⟩) rest := rfl
      rw [step, ih]
      by_cases hss : s = sub
      · subst hss
        rcases h : alGet st s with _ | u
        · simp only [h, Option.isSome_none, Bool.false_eq_true, reduceIte]
          rw [alGet_alSet_self]
          simp
        · simp only [h, Option.isSome_some, if_true, h]
      · have hget : alGet (if (alGet st sub).isSome then st
            else alSet st sub ⟨sub, 0, -1⟩) s = alGet st s := by
          split
          · rfl
          · exact alGet_alSet_ne st sub s _ hss
        rw [hget]
        rcases h : alGet st s with _ | u
        · simp [List.mem_cons, hss]
        · rfl

theorem subUsed_init (st : SubState) (subs : List String) (s : String) :
    subUsed (initSubredditTracker st subs) s ↔ subUsed st s := by
  unfold subUsed
  rw [initSubredditTracker_get]
  rcases h : alGet st s with _ | u
  · constructor
    · rintro ⟨u', hu', hne⟩
      by_cases hs : s ∈ subs
      · simp only [hs, if_true] at hu'
        cases hu'
        exact absurd rfl hne
      · simp [hs] at hu'
    · rintro ⟨u', hu', _⟩
      cases hu'
  · exact Iff.rfl

/-- One fresh-run selection step: under the invariant that the used
subreddits are exactly the previously selected ones, and while fewer
subreddits are selected than exist, the step picks a subreddit not yet
selected and extends the invariant. -/
theorem selectSubreddit_step (st : SubState) (subs : List String) (sel : List String)
    (i total : ℕ)
    (hused : ∀ s, subUsed st s ↔ s ∈ sel)
    (hcard : sel.length < subs.dedup.length) :
    (selectSubreddit st subs i total).1 ∈ subs ∧
    (selectSubreddit st subs i total).1 ∉ sel ∧
    (∀ s, subUsed (selectSubreddit st subs i total).2 s ↔
      s ∈ (selectSubreddit st subs i total).1 :: sel) := by
  have htracked : ∀ s ∈ subs, ∃ u, alGet (initSubredditTracker st subs) s = some u := by
    intro s hs
    rw [initSubredditTracker_get]
    rcases h : alGet st s with _ | u
    · exact ⟨⟨s, 0, -1⟩, by simp [hs]⟩
    · exact ⟨u, rfl⟩
  have hused1 : ∀ s, subUsed (initSubredditTracker st subs) s ↔ s ∈ sel := by
    intro s
    rw [subUsed_init]
    exact hused s
  have hav : ∀ s, s ∈ subs.filter (fun sub =>
      match alGet (initSubredditTracker st subs) sub with
      | some usage => usage.postsThisWeek == 0
      | none => false) ↔ s ∈ subs ∧ s ∉ sel := by
    intro s
    rw [List.mem_filter]
    constructor
    · rintro ⟨hs, hp⟩
      refine ⟨hs, ?_⟩
      rcases htracked s hs with ⟨u, hu⟩
      rw [hu] at hp
      simp only [beq_iff_eq] at hp
      intro hsel
      rcases (hused1 s).mpr hsel with ⟨u', hu', hne⟩
      rw [hu] at hu'
      cases hu'
      exact hne hp
    · rintro ⟨hs, hnsel⟩
      refine ⟨hs, ?_⟩
      rcases htracked s hs with ⟨u, hu⟩
      rw [hu]
      simp only [beq_iff_eq]
      by_contra hne
      exact hnsel ((hused1 s).mp ⟨u, hu, hne⟩)
  have hexists : ∃ s, s ∈ subs ∧ s ∉ sel := by
    by_contra hno
    push_neg at hno
    have hsubsub : subs.dedup.toFinset ⊆ sel.toFinset := by
      intro x hx
      rw [List.mem_toFinset] at hx ⊢
      exact hno x (List.mem_dedup.mp hx)
    have h1 : subs.dedup.length ≤ sel.length := by
      calc subs.dedup.length = subs.dedup.toFinset.card :=
            (List.toFinset_card_of_nodup (List.nodup_dedup subs)).symm
        _ ≤ sel.toFinset.card := Finset.card_le_card hsubsub
        _ ≤ sel.length := List.toFinset_card_le sel
    omega
  have havne : subs.filter (fun sub =>
      match alGet (initSubredditTracker st subs) sub with
      | some usage => usage.postsThisWeek == 0
      | none => false) ≠ [] := by
    rcases hexists with ⟨s, hs1, hs2⟩
    intro he
    have hmem := (hav s).mpr ⟨hs1, hs2⟩
    rw [he] at hmem
    exact absurd hmem (List.not_mem_nil s)
  -- evaluate the function under the nonempty-available branch
  unfold selectSubreddit
  simp only [List.isEmpty_eq_false.mpr havne, Bool.false_eq_true, reduceIte]
  set avail := subs.filter (fun sub =>
      match alGet (initSubredditTracker st subs) sub with
      | some usage => usage.postsThisWeek == 0
      | none => false) with havdef
  have hlen : 0 < avail.length := List.length_pos.mpr havne
  have hchosen_mem : avail.getD (i % avail.length) "" ∈ avail := by
    have hlt : i % avail.length < avail.length := Nat.mod_lt _ hlen
    rw [List.getD_eq_getElem _ _ hlt]
    exact List.getElem_mem hlt
  set chosen := avail.getD (i % avail.length) "" with hchdef
  have hch := (hav chosen).mp hchosen_mem
  rcases htracked chosen hch.1 with ⟨u, hu⟩
  rw [hu]
  refine ⟨hch.1, hch.2, ?_⟩
  intro s
  by_cases hs : s = chosen
  · subst hs
    simp only [List.mem_cons, true_or, iff_true]
    exact ⟨_, alGet_alSet_self _ _ _, by simp⟩
  · have hgete : alGet (alSet (initSubredditTracker st subs) chosen
        { u with postsThisWeek := u.postsThisWeek + 1, lastPostIndex := (i : ℤ) }) s =
        alGet (initSubredditTracker st subs) s := alGet_alSet_ne _ _ _ _ hs
    have h2 : subUsed (alSet (initSubredditTracker st subs) chosen
        { u with postsThisWeek := u.postsThisWeek + 1, lastPostIndex := (i : ℤ) }) s ↔
        subUsed (initSubredditTracker st subs) s := by
      unfold subUsed
      rw [hgete]
    rw [h2, hused1 s]
    simp [List.mem_cons, hs]

/-- The sequence of subreddits selected for post indices 0, 1, ... on a fresh
SubredditStrategy. -/
def selectSubredditRunAux (subreddits : List String) (totalPosts : ℕ) :
    List ℕ → SubState → List String
  | [], _ => []
  | i :: rest, st =>
    let r := selectSubreddit st subreddits i totalPosts
    r.1 :: selectSubredditRunAux subreddits totalPosts rest r.2

def selectSubredditRun (subreddits : List String) (totalPosts : ℕ) : List String :=
  selectSubredditRunAux subreddits totalPosts (List.range totalPosts) []

theorem selectSubredditRunAux_spec (subs : List String) (total : ℕ) :
    ∀ (idxs : List ℕ) (st : SubState) (sel : List String),
      (∀ s, subUsed st s ↔ s ∈ sel) →
      sel.length + idxs.length ≤ subs.dedup.length →
      (selectSubredditRunAux subs total idxs st).Nodup ∧
      ∀ x ∈ selectSubredditRunAux subs total idxs st, x ∉ sel := by
  intro idxs
  induction idxs with
  | nil =>
      intro st sel _ _
      exact ⟨List.nodup_nil, fun x hx => absurd hx (List.not_mem_nil x)⟩
  | cons i rest ih =>
      intro st sel h1 h4
      have hcard : sel.length < subs.dedup.length := by
        have hlc : (i :: rest).length = rest.length + 1 := rfl
        omega
      obtain ⟨hc_subs, hc_notsel, hinv⟩ := selectSubreddit_step st subs sel i total h1 hcard
      have ihres := ih (selectSubreddit st subs i total).2
        ((selectSubreddit st subs i total).1 :: sel) hinv
        (by
          have hlc : (i :: rest).length = rest.length + 1 := rfl
          have hlc2 : ((selectSubreddit st subs i total).1 :: sel).length = sel.length + 1 := rfl
          omega)
      have hexpand : selectSubredditRunAux subs total (i :: rest) st =
          (selectSubreddit st subs i total).1 ::
            selectSubredditRunAux subs total rest (selectSubreddit st subs i total).2 := rfl
      rw [hexpand]
      constructor
      · refine List.nodup_cons.mpr ⟨?_, ihres.1⟩
        intro hcmem
        exact ihres.2 _ hcmem (List.mem_cons_self _ _)
      · intro x hx
        rcases List.mem_cons.mp hx with hxc | hx'
        · rw [hxc]
          exact hc_notsel
        · exact fun hxs => ihres.2 x hx' (List.mem_cons_of_mem _ hxs)

/-- C4: on a fresh SubredditStrategy, when the number of distinct subreddits
is at least totalPosts, the subreddits selected for post indices
0 .. totalPosts - 1 are pairwise distinct. -/
theorem c4_selectSubreddit_distinct (subreddits : List String) (totalPosts : ℕ)
    (h : totalPosts ≤ subreddits.dedup.length) :
    (selectSubredditRun subreddits totalPosts).Nodup := by
  refine (selectSubredditRunAux_spec subreddits totalPosts (List.range totalPosts) [] []
    ?_ ?_).1
  · intro s
    unfold subUsed
    simp [alGet, List.find?]
  · simpa using h

theorem c4_witness : (selectSubredditRun ["r/a", "r/b", "r/c"] 3).Nodup :=
  c4_selectSubreddit_distinct ["r/a", "r/b", "r/c"] 3 (by decide)

/-! ### Claim C2: selectCommentAuthors size bounds -/

/-- C2 amended: for every genuine random outcome the list returned by
selectCommentAuthors has between 1 and 5 personas: 1 to 4 ranked non-author
commenters, plus possibly the post author appended by the 70 percent draw. -/
theorem c2_selectCommentAuthors_bounds (st : PState) (personas : List Persona)
    (postAuthor : Persona) (postIndex : ℤ) (g : Rand) (hg : ValidRand g) :
    1 ≤ (selectCommentAuthors st personas postAuthor postIndex g).1.length ∧
    (selectCommentAuthors st personas postAuthor postIndex g).1.length ≤ 5 := by
  unfold selectCommentAuthors
  by_cases hemp : (personas.filter (fun p => p.username != postAuthor.username)).isEmpty = true
  · simp only [hemp, if_true]
    constructor <;> simp
  · simp only [hemp, Bool.false_eq_true, reduceIte]
    have hlenpos : 0 < (personas.filter (fun p => p.username != postAuthor.username)).length := by
      cases h : personas.filter (fun p => p.username != postAuthor.username) with
      | nil => rw [h] at hemp; simp at hemp
      | cons a l => simp
    have hf := jsFloor_mul_bounds 3 (by norm_num) (validRand_head hg).1 (validRand_head hg).2
    push_cast at hf
    have hsortlen : (List.insertionSort (commentAuthorBefore st)
        (personas.filter (fun p => p.username != postAuthor.username))).length =
        (personas.filter (fun p => p.username != postAuthor.username)).length :=
      (List.perm_insertionSort _ _).length_eq
    have htakelen : ((List.insertionSort (commentAuthorBefore st)
        (personas.filter (fun p => p.username != postAuthor.username))).take
          (min (2 + jsFloor (g.head * 3))
            ((personas.filter (fun p => p.username != postAuthor.username)).length : ℤ)).toNat).length =
        (min (2 + jsFloor (g.head * 3))
          ((personas.filter (fun p => p.username != postAuthor.username)).length : ℤ)).toNat := by
      rw [List.length_take, hsortlen]
      omega
    split
    · rw [List.length_append, htakelen]
      simp only [List.length_cons, List.length_nil]
      omega
    · rw [htakelen]
      omega

def c2Rand : Rand := fun i => if i = 0 then 2/3 else 0

def c2Personas : List Persona :=
  [⟨"a", "b1"⟩, ⟨"b", "b2"⟩, ⟨"c", "b3"⟩, ⟨"d", "b4"⟩, ⟨"e", "b5"⟩]

def c2State : PState :=
  [("a", ⟨"a", 0, 0, -1⟩), ("b", ⟨"b", 0, 0, -1⟩), ("c", ⟨"c", 0, 0, -1⟩),
   ("d", ⟨"d", 0, 0, -1⟩), ("e", ⟨"e", 0, 0, -1⟩)]

/-- C2 counterexample to the 1..4 bound as stated: with five personas, a
draw of four commenters and a successful 70 percent author-append draw, the
returned list has 5 personas. -/
theorem c2_counterexample :
    (selectCommentAuthors c2State c2Personas ⟨"e", "b5"⟩ 0 c2Rand).1.length = 5 ∧
    ¬ (selectCommentAuthors c2State c2Personas ⟨"e", "b5"⟩ 0 c2Rand).1.length ≤ 4 := by
  with_unfolding_all decide

theorem c2_witness :
    1 ≤ (selectCommentAuthors [] [⟨"solo", "b"⟩] ⟨"solo", "b"⟩ 0 zeroRand).1.length ∧
    (selectCommentAuthors [] [⟨"solo", "b"⟩] ⟨"solo", "b"⟩ 0 zeroRand).1.length ≤ 5 :=
  c2_selectCommentAuthors_bounds [] [⟨"solo", "b"⟩] ⟨"solo", "b"⟩ 0 zeroRand zeroRand_valid

/-! ### Claim C8: keyword selection -/

theorem kwSelectLoop1_spec (combos : List String) (keywordCount : ℕ) (postIndex : ℤ) :
    ∀ (l sel : List Keyword) (tr : List (String × KeywordUsageTracker)),
      ∃ Δ, (kwSelectLoop1 combos keywordCount postIndex l sel tr).1 = sel ++ Δ ∧
        Δ.Sublist l ∧
        (sel.length ≤ keywordCount →
          (kwSelectLoop1 combos keywordCount postIndex l sel tr).1.length ≤ keywordCount) := by
  intro l
  induction l with
  | nil =>
      intro sel tr
      exact ⟨[], by simp [kwSelectLoop1], List.Sublist.refl [],
        fun h => by simpa [kwSelectLoop1] using h⟩
  | cons k rest ih =>
      intro sel tr
      by_cases hbreak : sel.length ≥ keywordCount
      · refine ⟨[], ?_, List.nil_sublist _, ?_⟩
        · simp only [kwSelectLoop1, if_pos hbreak, List.append_nil]
        · intro hle
          simp only [kwSelectLoop1, if_pos hbreak]
          omega
      · by_cases hacc : (sel.length = 0 ∨
            combos.contains (combinationKey (sel ++ [k])) = false)
        · rcases ih (sel ++ [k]) (updateKwUsage tr k postIndex) with ⟨Δ, h1, h2, h3⟩
          refine ⟨k :: Δ, ?_, List.Sublist.cons₂ k h2, ?_⟩
          · simp only [kwSelectLoop1, if_neg hbreak, if_pos hacc]
            rw [h1]
            simp
          · intro _
            simp only [kwSelectLoop1, if_neg hbreak, if_pos hacc]
            refine h3 ?_
            rw [List.length_append]
            simp only [List.length_cons, List.length_nil]
            omega
        · rcases ih sel tr with ⟨Δ, h1, h2, h3⟩
          refine ⟨Δ, ?_, h2.cons k, ?_⟩
          · simp only [kwSelectLoop1, if_neg hbreak, if_neg hacc]
            exact h1
          · intro hle
            simp only [kwSelectLoop1, if_neg hbreak, if_neg hacc]
            exact h3 hle

theorem kwSelectLoop2_prefix (keywordCount : ℕ) (postIndex : ℤ) :
    ∀ (l sel : List Keyword) (tr : List (String × KeywordUsageTracker)),
      ∃ t, sel ++ t = (kwSelectLoop2 keywordCount postIndex l sel tr).1 := by
  intro l
  induction l with
  | nil => exact fun sel tr => ⟨[], by simp [kwSelectLoop2]⟩
  | cons k rest ih =>
      intro sel tr
      by_cases hbreak : sel.length ≥ keywordCount
      · exact ⟨[], by simp [kwSelectLoop2, if_pos hbreak]⟩
      · by_cases hskip : ((sel.find? (fun s => s.keyword_id == k.keyword_id)).isSome = true)
        · rcases ih sel tr with ⟨t, ht⟩
          refine ⟨t, ?_⟩
          simp only [kwSelectLoop2, if_neg hbreak, hskip, if_true]
          exact ht
        · rcases ih (sel ++ [k]) (updateKwUsage tr k postIndex) with ⟨t, ht⟩
          refine ⟨k :: t, ?_⟩
          simp only [kwSelectLoop2, if_neg hbreak, hskip, Bool.false_eq_true, reduceIte]
          rw [← ht]
          simp

theorem kwSelectLoop2_mem (keywordCount : ℕ) (postIndex : ℤ) :
    ∀ (l sel : List Keyword) (tr : List (String × KeywordUsageTracker)),
      ∀ x ∈ (kwSelectLoop2 keywordCount postIndex l sel tr).1, x ∈ sel ∨ x ∈ l := by
  intro l
  induction l with
  | nil =>
      intro sel tr x hx
      simp only [kwSelectLoop2] at hx
      exact Or.inl hx
  | cons k rest ih =>
      intro sel tr x hx
      by_cases hbreak : sel.length ≥ keywordCount
      · simp only [kwSelectLoop2, if_pos hbreak] at hx
        exact Or.inl hx
      · by_cases hskip : ((sel.find? (fun s => s.keyword_id == k.keyword_id)).isSome = true)
        · simp only [kwSelectLoop2, if_neg hbreak, hskip, if_true] at hx
          rcases ih sel tr x hx with h | h
          · exact Or.inl h
          · exact Or.inr (List.mem_cons_of_mem k h)
        · simp only [kwSelectLoop2, if_neg hbreak, hskip, Bool.false_eq_true, reduceIte] at hx
          rcases ih (sel ++ [k]) (updateKwUsage tr k postIndex) x hx with h | h
          · rcases List.mem_append.mp h with h' | h'
            · exact Or.inl h'
            · exact Or.inr (by simpa using Or.inl (by simpa using h'))
          · exact Or.inr (List.mem_cons_of_mem k h)

theorem kwSelectLoop2_nodup (keywordCount : ℕ) (postIndex : ℤ) :
    ∀ (l sel : List Keyword) (tr : List (String × KeywordUsageTracker)),
      (sel.map (·.keyword_id)).Nodup →
      ((kwSelectLoop2 keywordCount postIndex l sel tr).1.map (·.keyword_id)).Nodup := by
  intro l
  induction l with
  | nil =>
      intro sel tr h
      simpa [kwSelectLoop2] using h
  | cons k rest ih =>
      intro sel tr h
      by_cases hbreak : sel.length ≥ keywordCount
      · simpa [kwSelectLoop2, if_pos hbreak] using h
      · by_cases hskip : ((sel.find? (fun s => s.keyword_id == k.keyword_id)).isSome = true)
        · simp only [kwSelectLoop2, if_neg hbreak, hskip, if_true]
          exact ih sel tr h
        · simp only [kwSelectLoop2, if_neg hbreak, hskip, Bool.false_eq_true, reduceIte]
          refine ih (sel ++ [k]) (updateKwUsage tr k postIndex) ?_
          rw [List.map_append]
          rw [List.nodup_append]
          refine ⟨h, List.nodup_singleton _, ?_⟩
          intro a ha hb
          simp only [List.map_cons, List.map_nil, List.mem_singleton] at hb
          subst hb
          have hnone : sel.find? (fun s => s.keyword_id == k.keyword_id) = none := by
            rcases hf : sel.find? (fun s => s.keyword_id == k.keyword_id) with _ | w
            · exact hf
            · exact absurd (by simp [hf]) hskip
          rcases List.mem_map.mp ha with ⟨s, hs, hsid⟩
          have := List.find?_eq_none.mp hnone s hs
          simp only [beq_iff_eq] at this
          exact this hsid

theorem kwSelectLoop2_len_le (keywordCount : ℕ) (postIndex : ℤ) :
    ∀ (l sel : List Keyword) (tr : List (String × KeywordUsageTracker)),
      sel.length ≤ keywordCount →
      (kwSelectLoop2 keywordCount postIndex l sel tr).1.length ≤ keywordCount := by
  intro l
  induction l with
  | nil =>
      intro sel tr h
      simpa [kwSelectLoop2] using h
  | cons k rest ih =>
      intro sel tr h
      by_cases hbreak : sel.length ≥ keywordCount
      · simpa [kwSelectLoop2, if_pos hbreak] using h
      · by_cases hskip : ((sel.find? (fun s => s.keyword_id == k.keyword_id)).isSome = true)
        · simp only [kwSelectLoop2, if_neg hbreak, hskip, if_true]
          exact ih sel tr h
        · simp only [kwSelectLoop2, if_neg hbreak, hskip, Bool.false_eq_true, reduceIte]
          refine ih (sel ++ [k]) (updateKwUsage tr k postIndex) ?_
          rw [List.length_append]
          simp only [List.length_cons, List.length_nil]
          omega

theorem kwSelectLoop2_complete (keywordCount : ℕ) (postIndex : ℤ) :
    ∀ (l sel : List Keyword) (tr : List (String × KeywordUsageTracker)),
      (kwSelectLoop2 keywordCount postIndex l sel tr).1.length < keywordCount →
      ∀ k ∈ l, k.keyword_id ∈
        (kwSelectLoop2 keywordCount postIndex l sel tr).1.map (·.keyword_id) := by
  intro l
  induction l with
  | nil =>
      intro sel tr _ k hk
      exact absurd hk (List.not_mem_nil k)
  | cons k0 rest ih =>
      intro sel tr hlen k hk
      by_cases hbreak : sel.length ≥ keywordCount
      · simp only [kwSelectLoop2, if_pos hbreak] at hlen
        omega
      · by_cases hskip : ((sel.find? (fun s => s.keyword_id == k0.keyword_id)).isSome = true)
        · simp only [kwSelectLoop2, if_neg hbreak, hskip, if_true] at hlen ⊢
          rcases List.mem_cons.mp hk with hk0 | hkr
          · subst hk0
            rcases Option.isSome_iff_exists.mp hskip with ⟨s, hsfind⟩
            have hsmem := List.mem_of_find?_eq_some hsfind
            have hspred := List.find?_some hsfind
            simp only [beq_iff_eq] at hspred
            rcases kwSelectLoop2_prefix keywordCount postIndex rest sel tr with ⟨t, ht⟩
            refine List.mem_map.mpr ⟨s, ?_, hspred⟩
            rw [← ht]
            exact List.mem_append.mpr (Or.inl hsmem)
          · exact ih sel tr hlen k hkr
        · simp only [kwSelectLoop2, if_neg hbreak, hskip, Bool.false_eq_true,
            reduceIte] at hlen ⊢
          rcases List.mem_cons.mp hk with hk0 | hkr
          · subst hk0
            rcases kwSelectLoop2_prefix keywordCount postIndex rest (sel ++ [k])
              (updateKwUsage tr k postIndex) with ⟨t, ht⟩
            refine List.mem_map.mpr ⟨k, ?_, rfl⟩
            rw [← ht]
            refine List.mem_append.mpr (Or.inl ?_)
            exact List.mem_append.mpr (Or.inr (by simp))
          · exact ih (sel ++ [k0]) (updateKwUsage tr k0 postIndex) hlen k hkr

/-- C8: with at least 3 keywords of pairwise distinct ids, every selection
returns exactly 2 or 3 keywords, with pairwise distinct ids, all drawn from
the supplied list; this holds for any tracker state and random outcome. -/
theorem c8_selectKeywordsForPost_spec (st : KwState) (keywords : List Keyword)
    (postIndex : ℤ) (subreddit : String) (g : Rand)
    (h3 : 3 ≤ keywords.length)
    (hnd : (keywords.map (·.keyword_id)).Nodup) :
    ((selectKeywordsForPost st keywords postIndex subreddit g).1.length = 2 ∨
      (selectKeywordsForPost st keywords postIndex subreddit g).1.length = 3) ∧
    ((selectKeywordsForPost st keywords postIndex subreddit g).1.map (·.keyword_id)).Nodup ∧
    ∀ k ∈ (selectKeywordsForPost st keywords postIndex subreddit g).1, k ∈ keywords := by
  set tr0 := initKeywordTracker st.usageTracker keywords with htr0
  set srt := List.insertionSort (kwBefore tr0) keywords with hsrt
  have hperm : srt.Perm keywords := List.perm_insertionSort _ _
  have hsortnd : (srt.map (·.keyword_id)).Nodup := (hperm.map _).nodup_iff.mpr hnd
  have hsortlen : srt.length = keywords.length := hperm.length_eq
  set kc : ℕ := if g.head < 3/5 then 2 else 3 with hkc
  have hkc23 : kc = 2 ∨ kc = 3 := by
    rw [hkc]
    split
    · exact Or.inl rfl
    · exact Or.inr rfl
  have hkc3 : kc ≤ 3 := by rcases hkc23 with h | h <;> omega
  have hkc2 : 2 ≤ kc := by rcases hkc23 with h | h <;> omega
  obtain ⟨Δ, hΔ1, hΔsub, hΔlen⟩ :=
    kwSelectLoop1_spec st.keywordCombinations kc postIndex srt [] tr0
  rcases hp1 : kwSelectLoop1 st.keywordCombinations kc postIndex srt [] tr0 with ⟨sel1, tr1⟩
  rw [hp1] at hΔ1 hΔlen
  simp only [List.nil_append] at hΔ1
  have hsel1 : sel1 = Δ := hΔ1
  subst hsel1
  have hΔnd : (sel1.map (·.keyword_id)).Nodup :=
    hsortnd.sublist (hΔsub.map (·.keyword_id))
  have hΔmem : ∀ x ∈ sel1, x ∈ keywords := fun x hx => hperm.subset (hΔsub.subset hx)
  have hΔle : sel1.length ≤ kc := hΔlen (by simp)
  by_cases hlt : sel1.length < kc
  · rcases hp2 : kwSelectLoop2 kc postIndex srt sel1 tr1 with ⟨sel2, tr2⟩
    have hres : (selectKeywordsForPost st keywords postIndex subreddit g).1 = sel2 := by
      unfold selectKeywordsForPost
      simp only []
      rw [← htr0, ← hkc, ← hsrt, hp1]
      simp only [if_pos hlt, hp2]
    rw [hres]
    have h2len := kwSelectLoop2_len_le kc postIndex srt sel1 tr1 (le_of_lt hlt)
    rw [hp2] at h2len
    simp only at h2len
    have h2nd := kwSelectLoop2_nodup kc postIndex srt sel1 tr1 hΔnd
    rw [hp2] at h2nd
    simp only at h2nd
    have h2mem := kwSelectLoop2_mem kc postIndex srt sel1 tr1
    rw [hp2] at h2mem
    simp only at h2mem
    have hlen2 : sel2.length = kc := by
      by_contra hne
      have hlt2 : sel2.length < kc := by omega
      have hcomp := kwSelectLoop2_complete kc postIndex srt sel1 tr1
        (by rw [hp2]; simpa using hlt2)
      rw [hp2] at hcomp
      simp only at hcomp
      have hsubids : (srt.map (·.keyword_id)).toFinset ⊆ (sel2.map (·.keyword_id)).toFinset := by
        intro x hx
        rw [List.mem_toFinset] at hx ⊢
        rcases List.mem_map.mp hx with ⟨kk, hkk, hkid⟩
        rw [← hkid]
        exact hcomp kk hkk
      have hcard := Finset.card_le_card hsubids
      rw [List.toFinset_card_of_nodup hsortnd, List.toFinset_card_of_nodup h2nd,
        List.length_map, List.length_map, hsortlen] at hcard
      omega
    refine ⟨by omega, h2nd, ?_⟩
    intro k hk
    rcases h2mem k hk with h | h
    · exact hΔmem k h
    · exact hperm.subset h
  · have hres : (selectKeywordsForPost st keywords postIndex subreddit g).1 = sel1 := by
      unfold selectKeywordsForPost
      simp only []
      rw [← htr0, ← hkc, ← hsrt, hp1]
      simp only [if_neg hlt]
    rw [hres]
    have hlen2 : sel1.length = kc := by omega
    exact ⟨by omega, hΔnd, hΔmem⟩

theorem c8_witness :
    ((selectKeywordsForPost ⟨[], []⟩ [⟨"K1", "a"⟩, ⟨"K2", "b"⟩, ⟨"K3", "c"⟩] 0 "r/A"
        zeroRand).1.length = 2 ∨
      (selectKeywordsForPost ⟨[], []⟩ [⟨"K1", "a"⟩, ⟨"K2", "b"⟩, ⟨"K3", "c"⟩] 0 "r/A"
        zeroRand).1.length = 3) ∧
    ((selectKeywordsForPost ⟨[], []⟩ [⟨"K1", "a"⟩, ⟨"K2", "b"⟩, ⟨"K3", "c"⟩] 0 "r/A"
        zeroRand).1.map (·.keyword_id)).Nodup ∧
    ∀ k ∈ (selectKeywordsForPost ⟨[], []⟩ [⟨"K1", "a"⟩, ⟨"K2", "b"⟩, ⟨"K3", "c"⟩] 0 "r/A"
        zeroRand).1, k ∈ [⟨"K1", "a"⟩, ⟨"K2", "b"⟩, ⟨"K3", "c"⟩] :=
  c8_selectKeywordsForPost_spec ⟨[], []⟩ [⟨"K1", "a"⟩, ⟨"K2", "b"⟩, ⟨"K3", "c"⟩] 0 "r/A"
    zeroRand (by norm_num) (by decide)


/-! ### Injectivity of the generated comment ids -/

/-- Numeric value of a decimal digit character. -/
def digitVal (c : Char) : ℕ := c.toNat - 48

theorem digitVal_digitChar : ∀ d : ℕ, d < 10 → digitVal (Nat.digitChar d) = d := by decide

theorem toDigitsCore_foldl :
    ∀ (f n : ℕ) (acc : List Char), n < f →
      List.foldl (fun a c => 10 * a + digitVal c) 0 (Nat.toDigitsCore 10 f n acc) =
        List.foldl (fun a c => 10 * a + digitVal c) n acc := by
  intro f
  induction f with
  | zero => intro n acc h; exact absurd h (Nat.not_lt_zero n)
  | succ f ih =>
      intro n acc h
      simp only [Nat.toDigitsCore]
      by_cases hz : n / 10 = 0
      · rw [if_pos hz]
        simp only [List.foldl_cons]
        have hd : digitVal (Nat.digitChar (n % 10)) = n % 10 :=
          digitVal_digitChar _ (Nat.mod_lt _ (by norm_num))
        rw [hd]
        have he : 10 * 0 + n % 10 = n := by omega
        rw [he]
      · rw [if_neg hz]
        have h1 : n / 10 < f := by omega
        rw [ih (n / 10) _ h1]
        simp only [List.foldl_cons]
        have hd : digitVal (Nat.digitChar (n % 10)) = n % 10 :=
          digitVal_digitChar _ (Nat.mod_lt _ (by norm_num))
        rw [hd]
        have he : 10 * (n / 10) + n % 10 = n := by omega
        rw [he]

theorem natRepr_injective : Function.Injective Nat.repr := by
  intro a b h
  have hdig : Nat.toDigits 10 a = Nat.toDigits 10 b := by
    have hdata := congrArg String.data h
    simpa [Nat.repr, List.asString] using hdata
  have ha : List.foldl (fun x c => 10 * x + digitVal c) 0 (Nat.toDigits 10 a) = a := by
    have := toDigitsCore_foldl (a + 1) a [] (Nat.lt_succ_self a)
    simpa [Nat.toDigits] using this
  have hb : List.foldl (fun x c => 10 * x + digitVal c) 0 (Nat.toDigits 10 b) = b := by
    have := toDigitsCore_foldl (b + 1) b [] (Nat.lt_succ_self b)
    simpa [Nat.toDigits] using this
  rw [hdig] at ha
  exact ha.symm.trans hb

theorem commentId_injective : Function.Injective (fun n : ℕ => "C" ++ Nat.repr n) := by
  intro a b h
  simp only at h
  have hdata := congrArg String.data h
  rw [String.data_append, String.data_append] at hdata
  have h2 : (Nat.repr a).data = (Nat.repr b).data := by
    simpa using hdata
  have h3 : Nat.repr a = Nat.repr b := by
    calc Nat.repr a = String.mk (Nat.repr a).data := rfl
      _ = String.mk (Nat.repr b).data := by rw [h2]
      _ = Nat.repr b := rfl
  exact natRepr_injective h3

/-! ### Structure of the comment plans produced by createCommentPlans -/

theorem createCommentPlansAux_parents (postAuthor : Persona) :
    ∀ (ps : List Persona) (i : ℕ) (g : Rand),
      ∀ cp ∈ (createCommentPlansAux postAuthor ps i g).1,
        cp.parentCommentId = none ∨ cp.parentCommentId = some "C1" := by
  intro ps
  induction ps with
  | nil =>
      intro i g cp hcp
      simp only [createCommentPlansAux, List.not_mem_nil] at hcp
  | cons p rest ih =>
      intro i g cp hcp
      simp only [createCommentPlansAux] at hcp
      rcases List.mem_cons.mp hcp with hhd | htl
      · subst hhd
        by_cases h0 : i = 0
        · simp only [if_pos h0]
          exact Or.inl trivial
        · by_cases h1 : i = 1
          · simp only [if_neg h0, if_pos h1]
            by_cases hr : g.head < (3 : ℚ)/5
            · simp only [if_pos hr]
              exact Or.inr trivial
            · by_cases hu : p.username = postAuthor.username
              · simp only [if_neg hr, if_pos hu]
                exact Or.inr trivial
              · simp only [if_neg hr, if_neg hu]
                exact Or.inl trivial
          · by_cases hu : p.username = postAuthor.username
            · simp only [if_neg h0, if_neg h1, if_pos hu]
              exact Or.inr trivial
            · simp only [if_neg h0, if_neg h1, if_neg hu]
              exact Or.inl trivial
      · exact ih (i + 1) _ cp htl

theorem createCommentPlans_parents (personas : List Persona) (targetCount : ℤ)
    (postAuthor : Persona) (g : Rand) :
    ∀ cp ∈ (createCommentPlans personas targetCount postAuthor g).1,
      cp.parentCommentId = none ∨ cp.parentCommentId = some "C1" := by
  intro cp hcp
  exact createCommentPlansAux_parents postAuthor _ 0 g cp hcp

theorem createCommentPlans_head (personas : List Persona) (targetCount : ℤ)
    (postAuthor : Persona) (g : Rand) :
    ∀ cp, (createCommentPlans personas targetCount postAuthor g).1.head? = some cp →
      cp.parentCommentId = none := by
  intro cp hcp
  unfold createCommentPlans at hcp
  simp only [] at hcp
  cases htk : List.take (min targetCount (personas.length : ℤ)).toNat personas with
  | nil =>
      rw [htk] at hcp
      simp only [createCommentPlansAux, List.head?_nil] at hcp
      exact Option.noConfusion hcp
  | cons p t =>
      rw [htk] at hcp
      simp only [createCommentPlansAux, List.head?_cons, Option.some.injEq] at hcp
      subst hcp
      simp

/-! ### Comment generation: ids and parents across a run -/

theorem generateCommentsForPost_spec (svc : IAiService) (input : CalendarInput)
    (post : GeneratedPost) :
    ∀ (cplans : List CommentPlan) (acc : List GeneratedComment) (n : ℕ) (g : Rand)
      (out : List GeneratedComment × ℕ × Rand),
      generateCommentsForPost svc input post cplans acc n g = .ok out →
      ∃ Δ : List GeneratedComment,
        out.1 = acc ++ Δ ∧
        out.2.1 = n + Δ.length ∧
        Δ.map (fun c => c.comment_id) =
          (List.range' n Δ.length).map (fun j => "C" ++ Nat.repr j) ∧
        Δ.map (fun c => c.parent_comment_id) = cplans.map (fun cp => cp.parentCommentId) := by
  intro cplans
  induction cplans with
  | nil =>
      intro acc n g out hout
      simp only [generateCommentsForPost] at hout
      injection hout with h
      refine ⟨[], ?_, ?_, ?_, ?_⟩
      · rw [← h]; simp
      · rw [← h]; simp
      · rfl
      · rfl
  | cons cp rest ih =>
      intro acc n g out hout
      simp only [generateCommentsForPost] at hout
      split at hout
      · exact Except.noConfusion hout
      · obtain ⟨Δ, h1, h2, h3, h4⟩ := ih _ _ _ out hout
        refine ⟨_ :: Δ, by rw [h1, List.append_assoc]; rfl, ?_, ?_, ?_⟩
        · rw [h2, List.length_cons]
          omega
        · simp only [List.map_cons, List.length_cons, List.range'_succ]
          exact congrArg₂ List.cons rfl h3
        · simp only [List.map_cons]
          exact congrArg₂ List.cons rfl h4

/-- Transfer of the parent-id policy from plans to generated comments. -/
theorem mem_parent_of_map_eq (Δ : List GeneratedComment) (cps : List CommentPlan)
    (hmap : Δ.map (fun c => c.parent_comment_id) = cps.map (fun cp => cp.parentCommentId))
    (hcps : ∀ cp ∈ cps, cp.parentCommentId = none ∨ cp.parentCommentId = some "C1") :
    ∀ c ∈ Δ, c.parent_comment_id = none ∨ c.parent_comment_id = some "C1" := by
  intro c hc
  have hm : c.parent_comment_id ∈ cps.map (fun cp => cp.parentCommentId) := by
    rw [← hmap]
    exact List.mem_map_of_mem _ hc
  rcases List.mem_map.mp hm with ⟨cp, hcp, he⟩
  rcases hcps cp hcp with h | h
  · exact Or.inl (he ▸ h)
  · exact Or.inr (he ▸ h)

/-- Transfer of the head parent from plans to generated comments. -/
theorem head_parent_of_map_eq (Δ : List GeneratedComment) (cps : List CommentPlan)
    (hmap : Δ.map (fun c => c.parent_comment_id) = cps.map (fun cp => cp.parentCommentId))
    (hcps : ∀ cp, cps.head? = some cp → cp.parentCommentId = none) :
    ∀ c, Δ.head? = some c → c.parent_comment_id = none := by
  intro c hc
  cases Δ with
  | nil => simp at hc
  | cons d t =>
      cases cps with
      | nil => simp at hmap
      | cons cp t2 =>
          simp only [List.map_cons, List.cons.injEq] at hmap
          simp only [List.head?_cons, Option.some.injEq] at hc
          subst hc
          rw [hmap.1]
          exact hcps cp rfl

theorem generateCommentsAux_spec (svc : IAiService) (input : CalendarInput) :
    ∀ (pairs : List (GeneratedPost × PostPlan)) (i : ℕ) (acc : List GeneratedComment)
      (n : ℕ) (pst : PState) (g : Rand)
      (out : List GeneratedComment × ℕ × PState × Rand),
      generateCommentsAux svc input pairs i acc n pst g = .ok out →
      ∃ Δ : List GeneratedComment,
        out.1 = acc ++ Δ ∧
        out.2.1 = n + Δ.length ∧
        Δ.map (fun c => c.comment_id) =
          (List.range' n Δ.length).map (fun j => "C" ++ Nat.repr j) ∧
        (∀ c ∈ Δ, c.parent_comment_id = none ∨ c.parent_comment_id = some "C1") ∧
        (∀ c, Δ.head? = some c → c.parent_comment_id = none) := by
  intro pairs
  induction pairs with
  | nil =>
      intro i acc n pst g out hout
      simp only [generateCommentsAux] at hout
      injection hout with h
      refine ⟨[], ?_, ?_, rfl, ?_, ?_⟩
      · rw [← h]; simp
      · rw [← h]; simp
      · intro c hc
        exact absurd hc (List.not_mem_nil c)
      · intro c hc
        simp at hc
  | cons pp rest ih =>
      obtain ⟨post, plan⟩ := pp
      intro i acc n pst g out hout
      simp only [generateCommentsAux] at hout
      split at hout
      · exact Except.noConfusion hout
      · rename_i r heq
        obtain ⟨Δ₁, hA1, hA2, hA3, hA4⟩ :=
          generateCommentsForPost_spec svc input post _ acc n _ r heq
        obtain ⟨Δ₂, hB1, hB2, hB3, hB4, hB5⟩ := ih (i + 1) r.1 r.2.1 _ r.2.2 out hout
        have hpar1 := mem_parent_of_map_eq Δ₁ _ hA4 (createCommentPlans_parents _ _ _ _)
        have hhd1 := head_parent_of_map_eq Δ₁ _ hA4 (createCommentPlans_head _ _ _ _)
        refine ⟨Δ₁ ++ Δ₂, ?_, ?_, ?_, ?_, ?_⟩
        · rw [hB1, hA1, List.append_assoc]
        · rw [hB2, hA2, List.length_append]
          omega
        · rw [List.map_append, hA3]
          rw [hA2] at hB3
          rw [hB3, ← List.map_append, List.range'_append_1]
          rw [List.length_append, Nat.add_comm Δ₂.length Δ₁.length]
        · intro c hc
          rcases List.mem_append.mp hc with h | h
          · exact hpar1 c h
          · exact hB4 c h
        · intro c hc
          cases hd1 : Δ₁ with
          | nil =>
              rw [hd1] at hc
              simp only [List.nil_append] at hc
              exact hB5 c hc
          | cons d t =>
              rw [hd1] at hc
              simp only [List.cons_append, List.head?_cons, Option.some.injEq] at hc
              subst hc
              apply hhd1
              rw [hd1]
              rfl

theorem generateComments_spec (svc : IAiService) (input : CalendarInput)
    (posts : List GeneratedPost) (postPlans : List PostPlan) (pst : PState) (g : Rand)
    (out : List GeneratedComment × ℕ × PState × Rand)
    (hout : generateComments svc input posts postPlans pst g = .ok out) :
    ∃ Δ : List GeneratedComment,
      out.1 = Δ ∧
      Δ.map (fun c => c.comment_id) =
        (List.range' 1 Δ.length).map (fun j => "C" ++ Nat.repr j) ∧
      (∀ c ∈ Δ, c.parent_comment_id = none ∨ c.parent_comment_id = some "C1") ∧
      (∀ c, Δ.head? = some c → c.parent_comment_id = none) := by
  obtain ⟨Δ, h1, h2, h3, h4, h5⟩ :=
    generateCommentsAux_spec svc input (posts.zip postPlans) 0 [] 1 pst g out hout
  exact ⟨Δ, by simpa using h1, h3, h4, h5⟩

/-! ### The auto-fix pass keeps ids and parent references -/

theorem fixCommentTimestamp_comment_id (ps : List GeneratedPost) (c : GeneratedComment) :
    (fixCommentTimestamp ps c).comment_id = c.comment_id := by
  unfold fixCommentTimestamp
  split
  · split <;> rfl
  · rfl

theorem fixCommentTimestamp_parent (ps : List GeneratedPost) (c : GeneratedComment) :
    (fixCommentTimestamp ps c).parent_comment_id = c.parent_comment_id := by
  unfold fixCommentTimestamp
  split
  · split <;> rfl
  · rfl

theorem fixTimestampIssues_comment_ids (posts : List GeneratedPost)
    (comments : List GeneratedComment) :
    ((fixTimestampIssues posts comments).2).map (fun c => c.comment_id)
      = comments.map (fun c => c.comment_id) := by
  simp only [fixTimestampIssues, List.map_map]
  apply List.map_congr_left
  intro a _
  exact fixCommentTimestamp_comment_id _ a

theorem fixTimestampIssues_parents (posts : List GeneratedPost)
    (comments : List GeneratedComment) :
    ((fixTimestampIssues posts comments).2).map (fun c => c.parent_comment_id)
      = comments.map (fun c => c.parent_comment_id) := by
  simp only [fixTimestampIssues, List.map_map]
  apply List.map_congr_left
  intro a _
  exact fixCommentTimestamp_parent _ a


/-- A constant collaborator used for concrete runs. -/
def c3Svc : IAiService :=
  { generatePost := fun _ => .ok ⟨"alpha beta", "body text"⟩
    generateComment := fun _ => .ok ⟨"comment text"⟩ }

/-- A concrete input with three personas and one post per week, on which the
whole pipeline succeeds. -/
def c3Input : CalendarInput :=
  { company := ⟨"Acme", "https://acme.test", "consulting tools", ["r/A"], 1⟩
    personas := [⟨"riley", "b1"⟩, ⟨"jordan", "b2"⟩, ⟨"emily", "b3"⟩]
    keywords := [⟨"K1", "kw one"⟩]
    weekNumber := some 1 }

/-- Integrity of the comment list after the auto-fix pass, given the id and
parent structure established for the raw generated comments. -/
theorem integrity_of_fixed (posts : List GeneratedPost) (Δ : List GeneratedComment)
    (hids : Δ.map (fun c => c.comment_id) =
      (List.range' 1 Δ.length).map (fun j => "C" ++ Nat.repr j))
    (hpar : ∀ c ∈ Δ, c.parent_comment_id = none ∨ c.parent_comment_id = some "C1")
    (hhd : ∀ c, Δ.head? = some c → c.parent_comment_id = none) :
    (((fixTimestampIssues posts Δ).2).map (fun c => c.comment_id)).Nodup ∧
    (∀ c ∈ (fixTimestampIssues posts Δ).2, ∀ pid, c.parent_comment_id = some pid →
      (∃ c2 ∈ (fixTimestampIssues posts Δ).2, c2.comment_id = pid) ∧ c.comment_id ≠ pid) := by
  constructor
  · rw [fixTimestampIssues_comment_ids, hids]
    exact List.Nodup.map commentId_injective (List.nodup_range' _ _)
  · intro c hc pid hpid
    have hcm : c ∈ Δ.map (fixCommentTimestamp
        (posts.map (fun p => { p with timestamp := adjustToBusinessHours p.timestamp }))) := hc
    rcases List.mem_map.mp hcm with ⟨c0, hc0, hfix⟩
    have hidc : c.comment_id = c0.comment_id := by
      rw [← hfix, fixCommentTimestamp_comment_id]
    have hparc : c.parent_comment_id = c0.parent_comment_id := by
      rw [← hfix, fixCommentTimestamp_parent]
    have hp0 : c0.parent_comment_id = some pid := by
      rw [← hparc]
      exact hpid
    rcases hpar c0 hc0 with hnone | hc1
    · rw [hnone] at hp0
      exact Option.noConfusion hp0
    · rw [hc1] at hp0
      injection hp0 with hpe
      subst hpe
      cases Δ with
      | nil => exact absurd hc0 (List.not_mem_nil c0)
      | cons d t =>
          have hids2 := hids
          simp only [List.map_cons, List.length_cons, List.range'_succ,
            List.cons.injEq] at hids2
          have hdid : d.comment_id = "C1" := hids2.1.trans (by decide)
          have hdpar : d.parent_comment_id = none := hhd d rfl
          constructor
          · refine ⟨fixCommentTimestamp
              (posts.map (fun p => { p with timestamp := adjustToBusinessHours p.timestamp })) d,
              List.mem_map_of_mem _ (List.mem_cons_self d t), ?_⟩
            rw [fixCommentTimestamp_comment_id]
            exact hdid
          · intro hceq
            have hnodup : ((d :: t).map (fun x => x.comment_id)).Nodup := by
              rw [hids]
              exact List.Nodup.map commentId_injective (List.nodup_range' _ _)
            have hinj := List.inj_on_of_nodup_map hnodup
            have hc0id : c0.comment_id = "C1" := by
              rw [← hidc]
              exact hceq
            have hc0d : c0 = d := hinj hc0 (List.mem_cons_self d t) (by rw [hc0id, hdid])
            rw [hc0d, hdpar] at hc1
            exact Option.noConfusion hc1

/-- The referential-integrity property claimed for the output of generate:
distinct comment ids, resolvable parents, no self-parenting. A failing run
satisfies it vacuously. -/
def commentIntegrity : Except String ContentCalendar → Prop
  | .error _ => True
  | .ok cal =>
      (cal.comments.map (fun c => c.comment_id)).Nodup ∧
      (∀ c ∈ cal.comments, ∀ pid, c.parent_comment_id = some pid →
        (∃ c2 ∈ cal.comments, c2.comment_id = pid) ∧ c.comment_id ≠ pid)

/-- C3: every calendar returned by a successful generate call has pairwise
distinct comment ids, every non-null parent_comment_id resolves to a comment
of the same result, and no comment is its own parent. -/
theorem c3_generate_comment_integrity (svc : IAiService) (input : CalendarInput)
    (now : ℤ) (g : Rand) (_hpers : 2 ≤ input.personas.length)
    (_hppw : 1 ≤ input.company.postsPerWeek) (_hg : ValidRand g) :
    commentIntegrity (generate svc input now g) := by
  cases hres : generate svc input now g with
  | error e => exact trivial
  | ok cal =>
      unfold generate at hres
      simp only [] at hres
      split at hres
      · exact Except.noConfusion hres
      · rename_i posts hposts
        split at hres
        · exact Except.noConfusion hres
        · rename_i r hcm
          split at hres
          · obtain ⟨Δ, hΔo, hids, hpar, hhd⟩ :=
              generateComments_spec svc input posts _ _ _ r hcm
            injection hres with hcal
            subst hcal
            rw [hΔo]
            exact integrity_of_fixed posts Δ hids hpar hhd
          · exact Except.noConfusion hres

theorem c3_witness :
    2 ≤ c3Input.personas.length ∧ 1 ≤ c3Input.company.postsPerWeek ∧
      ValidRand zeroRand ∧
      (generate c3Svc c3Input 0 zeroRand).toOption.isSome = true ∧
      commentIntegrity (generate c3Svc c3Input 0 zeroRand) :=
  ⟨by decide, by decide, zeroRand_valid,
    by set_option maxRecDepth 8000 in with_unfolding_all decide,
    c3_generate_comment_integrity c3Svc c3Input 0 zeroRand (by decide) (by decide) zeroRand_valid⟩

/-- The validation outcome claimed for every calendar generate returns: the
aggregate validation and all five individual business-rule checks pass. A
failing run satisfies it vacuously. -/
def calendarValidated : Except String ContentCalendar → Prop
  | .error _ => True
  | .ok cal =>
      (validateContentCalendar cal.posts cal.comments).isValid = true ∧
      (validateNoOverposting cal.posts).isValid = true ∧
      (validateTopicDiversity cal.posts).isValid = true ∧
      (validateTimestamps cal.posts cal.comments).isValid = true ∧
      (validatePersonaDistribution cal.posts cal.comments).isValid = true ∧
      (validateCommentThreads cal.comments).isValid = true

/-- C7: generate never returns a calendar that fails validation; every
returned calendar satisfies the aggregate validateContentCalendar check and
each of the five business-rule checks individually. -/
theorem c7_generate_only_validated (svc : IAiService) (input : CalendarInput)
    (now : ℤ) (g : Rand) : calendarValidated (generate svc input now g) := by
  cases hres : generate svc input now g with
  | error e => exact trivial
  | ok cal =>
      unfold generate at hres
      simp only [] at hres
      split at hres
      · exact Except.noConfusion hres
      · rename_i posts hposts
        split at hres
        · exact Except.noConfusion hres
        · rename_i r hcm
          split at hres
          · rename_i hv
            injection hres with hcal
            subst hcal
            have hall := hv
            simp only [validateContentCalendar, List.all_cons, List.all_nil,
              Bool.and_eq_true, Bool.and_true] at hall
            obtain ⟨h1, h2, h3, h4, h5⟩ := hall
            exact ⟨hv, h1, h2, h3, h4, h5⟩
          · exact Except.noConfusion hres


/-! ### A concrete run exhibiting the cross-post parent reference -/

/-- Collaborator for the concrete two-post run. -/
def c1Svc : IAiService :=
  { generatePost := fun _ => .ok ⟨"alpha beta", "body"⟩
    generateComment := fun _ => .ok ⟨"comment text"⟩ }

/-- Input for the concrete two-post run. -/
def c1Input : CalendarInput :=
  { company := ⟨"Acme", "https://acme.test", "consulting tools", ["r/A", "r/B"], 2⟩
    personas := [⟨"riley", "b1"⟩, ⟨"jordan", "b2"⟩, ⟨"emily", "b3"⟩]
    keywords := [⟨"K1", "kw one"⟩, ⟨"K2", "kw two"⟩]
    weekNumber := some 1 }

def c1Post1 : GeneratedPost := ⟨"P1", "r/A", "alpha beta", "body", "riley", 0, ["K1"]⟩

def c1Post2 : GeneratedPost := ⟨"P2", "r/B", "gamma delta", "body", "jordan", 1000000, ["K2"]⟩

def c1Plan1 : PostPlan := ⟨0, "r/A", ⟨"riley", "b1"⟩, 0, [⟨"K1", "kw one"⟩], none⟩

def c1Plan2 : PostPlan := ⟨1, "r/B", ⟨"jordan", "b2"⟩, 1000000, [⟨"K2", "kw two"⟩], none⟩

/-- Persona tracker state after the two posts were planned. -/
def c1PSt : PState :=
  [("riley", ⟨"riley", 1, 0, 0⟩), ("jordan", ⟨"jordan", 1, 0, 1⟩),
   ("emily", ⟨"emily", 0, 0, -1⟩)]

/-- C1: in a concrete two-post run (all random draws 0) the reply planned in
the second post thread is stored with parent_comment_id C1, the id of the
first comment of the FIRST post, not the first comment C3 of its own post:
the generator hard-codes the literal C1 instead of resolving the first
comment created for the same post. -/
theorem c1_reply_parent_is_first_comment_of_first_post :
    (generateComments c1Svc c1Input [c1Post1, c1Post2] [c1Plan1, c1Plan2] c1PSt
        zeroRand).toOption.map
      (fun r => r.1.map (fun c => (c.comment_id, c.post_id, c.parent_comment_id))) =
    some [("C1", "P1", none), ("C2", "P1", some "C1"),
      ("C3", "P2", none), ("C4", "P2", some "C1")] := by
  set_option maxRecDepth 8000 in with_unfolding_all decide

end RM
